import Mathlib

/-!
# DUNESchoolInteractions: the quasi-elastic formula and the final-state cuts

A shallow embedding of the arithmetic and the boolean selections found in the
CAFAna exercise macros (`firstAnalysisSolution.C`, `Exercise2Solution.C`,
`Exercise2aSolution.C`, `Exercise3.C`, `Exercise3Solution.C`).

## Numbers

A C++ `double` is embedded twice.

* `Dbl` is the exact-arithmetic reading: a real number, a signed infinity or
  NaN.  Arithmetic on finite values is exact real arithmetic (no rounding, no
  overflow to infinity, a single unsigned zero); the special values follow the
  IEEE-754 rules that C++ uses: `sqrt` of a negative number is NaN, a non-zero
  number divided by zero is an infinity, `0/0` is NaN, and NaN propagates
  through every operation.  It serves the statements made over the exact
  reals and the statements that do not depend on the arithmetic.
* `F64` is IEEE-754 binary64, with rounding to nearest (ties to even),
  subnormals, signed zeros and overflow: what the compiled macro computes.
  It is executable, and serves to evaluate the macros at concrete inputs.

A C++ `int` field of the event record is embedded as `Int`; a well-formed
record holds values of `[-2^31, 2^31)`.  The only integer arithmetic in the
macros is the addition of particle multiplicities, embedded as `cint.add`,
which wraps around modulo `2^32` as the compiled macro does.
-/

/-! ## The embedding of `double` over the exact reals -/

/-- Values of a C++ `double` in the exact-arithmetic reading: a finite real, an
infinity (`neg = true` for minus infinity), or NaN. -/
inductive Dbl where
  | fin (x : ℝ)
  | inf (neg : Bool)
  | nan

namespace Dbl

/-- Unary minus of C++ on `double`. -/
def neg : Dbl → Dbl
  | fin x => fin (-x)
  | inf s => inf (!s)
  | nan => nan

/-- Binary `+` of C++ on `double`, exact on finite values (no rounding, no
overflow): infinities of opposite sign add to NaN. -/
noncomputable def add : Dbl → Dbl → Dbl
  | fin x, fin y => fin (x + y)
  | fin _, inf s => inf s
  | inf s, fin _ => inf s
  | inf s, inf t => if s = t then inf s else nan
  | nan, _ => nan
  | _, nan => nan

/-- Binary `-` of C++ on `double`. -/
noncomputable def sub (a b : Dbl) : Dbl :=
  add a (neg b)

/-- Binary `*` of C++ on `double`, exact on finite values (no rounding, no
overflow): zero times an infinity is NaN. -/
noncomputable def mul : Dbl → Dbl → Dbl
  | fin x, fin y => fin (x * y)
  | fin x, inf s => if x = 0 then nan else inf (xor (decide (x < 0)) s)
  | inf s, fin y => if y = 0 then nan else inf (xor s (decide (y < 0)))
  | inf s, inf t => inf (xor s t)
  | nan, _ => nan
  | _, nan => nan

/-- Binary `/` of C++ on `double`, exact on finite values: a non-zero finite
number over zero is an infinity with the sign of the numerator, `0/0` and
`inf/inf` are NaN and a finite number over an infinity is zero. -/
noncomputable def div : Dbl → Dbl → Dbl
  | fin x, fin y =>
      if y = 0 then (if x = 0 then nan else inf (decide (x < 0))) else fin (x / y)
  | fin _, inf _ => fin 0
  | inf s, fin y => inf (xor s (decide (y < 0)))
  | inf _, inf _ => nan
  | nan, _ => nan
  | _, nan => nan

/-- The `sqrt` of `<cmath>`: NaN below zero, the real square root otherwise. -/
noncomputable def sqrt : Dbl → Dbl
  | fin x => if x < 0 then nan else fin (Real.sqrt x)
  | inf false => inf false
  | inf true => nan
  | nan => nan

/-- The `cos` of `<cmath>`: NaN at an infinity. -/
noncomputable def cos : Dbl → Dbl
  | fin x => fin (Real.cos x)
  | inf _ => nan
  | nan => nan

/-- The `std::isnan` of `<cmath>`. -/
def isnan : Dbl → Bool
  | nan => true
  | _ => false

/-- Holds of the finite values only (what `std::isfinite` tests). -/
def isfinite : Dbl → Bool
  | fin _ => true
  | _ => false

/-- The real number a finite value stands for; `0` for the special values. -/
def toReal : Dbl → ℝ
  | fin x => x
  | _ => 0

/-- The comparison `<` of C++ on `double`: false as soon as one side is NaN. -/
noncomputable def lt : Dbl → Dbl → Bool
  | fin x, fin y => decide (x < y)
  | fin _, inf s => !s
  | inf s, fin _ => s
  | inf s, inf t => s && !t
  | nan, _ => false
  | _, nan => false

/-- The comparison `<=` of C++ on `double`: false as soon as one side is NaN. -/
noncomputable def le : Dbl → Dbl → Bool
  | fin x, fin y => decide (x ≤ y)
  | fin _, inf s => !s
  | inf s, fin _ => s
  | inf s, inf t => s || !t
  | nan, _ => false
  | _, nan => false

/-- The comparison `>=` of C++ on `double`. -/
noncomputable def ge (a b : Dbl) : Bool :=
  le b a

/-- The comparison `==` of C++ on `double`: NaN is equal to nothing. -/
noncomputable def eq : Dbl → Dbl → Bool
  | fin x, fin y => decide (x = y)
  | inf s, inf t => s == t
  | _, _ => false

noncomputable instance : Add Dbl := ⟨add⟩
noncomputable instance : Sub Dbl := ⟨sub⟩
noncomputable instance : Mul Dbl := ⟨mul⟩
noncomputable instance : Div Dbl := ⟨div⟩
instance : Neg Dbl := ⟨neg⟩
instance : Coe ℝ Dbl := ⟨fin⟩
instance (n : ℕ) : OfNat Dbl n := ⟨fin n⟩

end Dbl

/-! ## Physical constants (identical in every macro that declares them) -/

/-- Proton mass in GeV: `const double M_P = .938;`. -/
noncomputable def M_P : ℝ := 0.938

/-- Neutron mass in GeV: `const double M_N = .939;`. -/
noncomputable def M_N : ℝ := 0.939

/-- Muon mass in GeV: `const double M_MU = .106;`. -/
noncomputable def M_MU : ℝ := 0.106

/-- Binding energy for nucleons in argon-40 in GeV: `const double E_B = .028;`. -/
noncomputable def E_B : ℝ := 0.028

/-- Modelled from the spec: `util::sqr` belongs to CAFAna and is not under
`src/`; the spec's relation `p = sqrt(E^2 - m^2)` makes it the square. -/
noncomputable def sqr (x : Dbl) : Dbl :=
  x * x

/-! ## The quasi-elastic formula

The same text in `firstAnalysisSolution.C`, `Exercise3.C` and
`Exercise3Solution.C`. -/

/-- The quasi-elastic formula for neutrino energy, from the muon energy and the
cosine of the muon angle, in the exact-arithmetic reading
(`Binary64.QEFormula` is the same text in binary64). -/
noncomputable def QEFormula (Emu cosmu : Dbl) : Dbl :=
  let pmu := Dbl.sqrt (sqr Emu - sqr M_MU)
  let num := sqr M_P - sqr (M_N - E_B) - sqr M_MU + 2 * (M_N - E_B) * Emu
  let denom := 2 * (M_N - E_B - Emu + pmu * cosmu)
  num / denom

/-! ## The event record -/

/-- The fields of the CAF standard record (`caf::SRProxy`) that the macros
read.  The type itself belongs to the external toolkit; the `int` fields are
the lepton PDG code, the GENIE interaction mode and the particle
multiplicities, the `double` fields are energies (GeV) and angles, held in the
exact-arithmetic reading. -/
structure SRProxy where
  LepPDG : Int
  mode : Int
  nP : Int
  nN : Int
  nipip : Int
  nipim : Int
  nipi0 : Int
  nikp : Int
  nikm : Int
  nik0 : Int
  niem : Int
  nNucleus : Int
  LepE : Dbl
  LepNuAngle : Dbl
  eP : Dbl
  Elep_reco : Dbl
  theta_reco : Dbl
  eRecoP : Dbl
  Ev_reco : Dbl

/-- PDG code of the muon: `const int PDG_MU=13;`. -/
def PDG_MU : Int := 13

namespace cint

/-- The value an `int` holds after a computation whose mathematical result is
`x`: `x` brought back into `[-2^31, 2^31)` modulo `2^32` (two's complement
wrap-around, what the compiled macro does on overflow). -/
def wrap (x : Int) : Int :=
  (x + 2147483648) % 4294967296 - 2147483648

/-- Binary `+` of C++ on `int`. -/
def add (a b : Int) : Int :=
  wrap (a + b)

end cint

namespace cstdlib

/-- The `abs` of `<cstdlib>` on `int`. -/
def abs (x : Int) : Int :=
  if x < 0 then -x else x

end cstdlib

/-! ## Final-state cuts -/

namespace Exercise2Solution

/-- The cut `kHasQEFinalState` of `Exercise2Solution.C`. -/
def kHasQEFinalState (sr : SRProxy) : Bool :=
  let totOthers := cint.add (cint.add (cint.add (cint.add (cint.add (cint.add (cint.add
    (cint.add sr.nN sr.nipip) sr.nipim) sr.nipi0) sr.nikp) sr.nikm) sr.nik0) sr.niem)
    sr.nNucleus
  sr.LepPDG == PDG_MU && sr.nP == 1 && totOthers == 0

end Exercise2Solution

namespace Exercise3Solution

/-- The cut `kHasQEFinalState` of `Exercise3Solution.C`. -/
def kHasQEFinalState (sr : SRProxy) : Bool :=
  let totOthers := cint.add (cint.add (cint.add (cint.add (cint.add (cint.add (cint.add
    (cint.add sr.nN sr.nipip) sr.nipim) sr.nipi0) sr.nikp) sr.nikm) sr.nik0) sr.niem)
    sr.nNucleus
  cstdlib.abs sr.LepPDG == PDG_MU && sr.nP == 1 && totOthers == 0

end Exercise3Solution

namespace firstAnalysisSolution

/-- The cut `kHasQEFinalState` of `firstAnalysisSolution.C`. -/
def kHasQEFinalState (sr : SRProxy) : Bool :=
  let totOthers := cint.add (cint.add (cint.add (cint.add (cint.add (cint.add (cint.add
    (cint.add sr.nN sr.nipip) sr.nipim) sr.nipi0) sr.nikp) sr.nikm) sr.nik0) sr.niem)
    sr.nNucleus
  cstdlib.abs sr.LepPDG == PDG_MU && sr.nP == 1 && totOthers == 0

end firstAnalysisSolution

namespace Exercise2Solution

/-- The cut `kHasCC0PiFinalState` of `Exercise2Solution.C`. -/
def kHasCC0PiFinalState (sr : SRProxy) : Bool :=
  let totPi := cint.add (cint.add sr.nipip sr.nipim) sr.nipi0
  sr.LepPDG == PDG_MU && decide (sr.nP ≥ 1) && totPi == 0

end Exercise2Solution

namespace Exercise2aSolution

/-- The cut `kHasCC0PiFinalState` of `Exercise2aSolution.C`. -/
def kHasCC0PiFinalState (sr : SRProxy) : Bool :=
  let totPi := cint.add (cint.add sr.nipip sr.nipim) sr.nipi0
  sr.LepPDG == PDG_MU && decide (sr.nP ≥ 1) && totPi == 0

end Exercise2aSolution

namespace firstAnalysisSolution

/-- The cut `kHasCC0PiFinalState` of `firstAnalysisSolution.C`. -/
def kHasCC0PiFinalState (sr : SRProxy) : Bool :=
  let totPi := cint.add (cint.add sr.nipip sr.nipim) sr.nipi0
  cstdlib.abs sr.LepPDG == PDG_MU && decide (sr.nP ≥ 1) && totPi == 0

end firstAnalysisSolution

namespace Exercise3

/-- The cut `kHasQEFinalState` of `Exercise3.C`, with its three early returns on
the reconstructed energies. -/
noncomputable def kHasQEFinalState (sr : SRProxy) : Bool :=
  if Dbl.isnan sr.Ev_reco then false
  else if Dbl.le sr.Ev_reco 0 then false
  else if Dbl.le sr.Elep_reco 0 then false
  else
    let totOthers := cint.add (cint.add (cint.add (cint.add (cint.add (cint.add (cint.add
      (cint.add sr.nN sr.nipip) sr.nipim) sr.nipi0) sr.nikp) sr.nikm) sr.nik0) sr.niem)
      sr.nNucleus
    sr.LepPDG == PDG_MU && sr.nP == 1 && totOthers == 0

end Exercise3

/-! ## Variables -/

namespace firstAnalysisSolution

/-- The variable `kRecoQEFormulaEnergy` of `firstAnalysisSolution.C`. -/
noncomputable def kRecoQEFormulaEnergy (sr : SRProxy) : Dbl :=
  let Emu := sr.Elep_reco
  let cosmu := Dbl.cos sr.theta_reco
  if Dbl.eq Emu 0 then 0 else QEFormula Emu cosmu

/-- The variable `kRecoE` of `firstAnalysisSolution.C`. -/
def kRecoE (sr : SRProxy) : Dbl :=
  if Dbl.isnan sr.Ev_reco then 0 else sr.Ev_reco

end firstAnalysisSolution

namespace Exercise3Solution

/-- The variable `kConservedETrue` of `Exercise3Solution.C`, in the
exact-arithmetic reading. -/
noncomputable def kConservedETrue (sr : SRProxy) : Dbl :=
  let Emu := sr.LepE
  let protonKE := sr.eP
  Emu + (protonKE + M_P) - (M_N - E_B)

/-- The variable `kConservedEReco` of `Exercise3Solution.C`, in the
exact-arithmetic reading. -/
noncomputable def kConservedEReco (sr : SRProxy) : Dbl :=
  let Emu := sr.Elep_reco
  let protonKE := sr.eRecoP
  Emu + (protonKE + M_P) - (M_N - E_B)

/-- The variable `kRecoE` of `Exercise3Solution.C`. -/
def kRecoE (sr : SRProxy) : Dbl :=
  if Dbl.isnan sr.Ev_reco then 0 else sr.Ev_reco

/-- The variable `kQEFormulaEnergy` of `Exercise3Solution.C`. -/
noncomputable def kQEFormulaEnergy (sr : SRProxy) : Dbl :=
  let Emu := sr.Elep_reco
  let cosmu := Dbl.cos sr.theta_reco
  if Dbl.eq Emu 0 then 0 else QEFormula Emu cosmu

end Exercise3Solution

/-! ## Scaling of the y axis -/

namespace TMath

/-- The `TMath::Max` of ROOT on `Double_t`: `a >= b ? a : b`. -/
noncomputable def Max (a b : Dbl) : Dbl :=
  if Dbl.ge a b then a else b

end TMath

namespace std

/-- The `std::max` of `<algorithm>`: `(a < b) ? b : a`. -/
noncomputable def max (a b : Dbl) : Dbl :=
  if Dbl.lt a b then b else a

end std

namespace Exercise2Solution

/-- The height of the tallest of the three histograms of `Exercise2Solution.C`,
from their maxima (`GetMaximum()` of `hTrueEQE`, `hTrueEQEfs`, `hTrueE0pifs`). -/
noncomputable def height (mTrueEQE mTrueEQEfs mTrueE0pifs : Dbl) : Dbl :=
  TMath.Max mTrueEQE (TMath.Max mTrueEQEfs mTrueE0pifs)

/-- The upper limit given to `SetRangeUser`: `height * 1.1`. -/
noncomputable def yAxisTop (mTrueEQE mTrueEQEfs mTrueE0pifs : Dbl) : Dbl :=
  height mTrueEQE mTrueEQEfs mTrueE0pifs * Dbl.fin 1.1

end Exercise2Solution

namespace Exercise3Solution

/-- The height computed in `Exercise3Solution.C` from the maxima of the five
histograms (`hConservedETrue`, `hConservedEReco`, `hEQE`, `hEReco`, `hETrue`). -/
noncomputable def height (mConservedETrue mConservedEReco mEQE mEReco mETrue : Dbl) : Dbl :=
  let height := TMath.Max mConservedETrue mConservedEReco
  let height := std.max height mEQE
  let height := std.max height mEReco
  let height := std.max height mETrue
  height

/-- The upper limit given to `SetRangeUser`: `height * 1.1`. -/
noncomputable def yAxisTop (mConservedETrue mConservedEReco mEQE mEReco mETrue : Dbl) : Dbl :=
  height mConservedETrue mConservedEReco mEQE mEReco mETrue * Dbl.fin 1.1

end Exercise3Solution

/-! ## The embedding of `double` as IEEE-754 binary64

`Dbl` above reads the arithmetic of the macros over the exact reals.  `F64`
is what the compiled macro computes: a binary64 number is a sign, a mantissa
`m < 2^53` and an exponent `e` in `[-1074, 971]`, of value `± m * 2^e`, normal
when `2^52 <= m` and subnormal (`e = -1074`) otherwise; zero is `m = 0` at
`e = -1074` and has a sign.  Every operation rounds the exact result to the
nearest such number, ties to the even mantissa, and overflows to an infinity. -/

/-- Values of a C++ `double` as IEEE-754 binary64. -/
inductive F64 where
  | fin (neg : Bool) (m : Nat) (e : Int)
  | inf (neg : Bool)
  | nan
  deriving DecidableEq

namespace F64

/-- Auxiliary to `bitLen`: strips `k` bits at a time, for `k` in the list. -/
def bitLenAux : List Nat → Nat → Nat → Nat
  | [], n, acc => if n = 0 then acc else acc + 1
  | k :: ks, n, acc =>
      if n >>> k = 0 then bitLenAux ks n acc else bitLenAux ks (n >>> k) (acc + k)

/-- Number of binary digits of `n` (0 for 0), for `n < 2^8192`. -/
def bitLen (n : Nat) : Nat :=
  bitLenAux [4096, 2048, 1024, 512, 256, 128, 64, 32, 16, 8, 4, 2, 1] n 0

/-- Rounding to nearest, ties to even: the binary64 value of the exact number
`± (n + t) * 2^e`, where `0 <= t < 1` and `t` is not zero exactly when `sticky`
is set (callers that set `sticky` pass an `n` of more than 53 digits). -/
def round (neg : Bool) (n : Nat) (e : Int) (sticky : Bool) : F64 :=
  let sh : Int := max ((bitLen n : Int) - 53) (-1074 - e)
  if n = 0 ∧ sticky = false then fin neg 0 (-1074)
  else if sh ≤ 0 then
    fin neg (n <<< (-sh).toNat) (e + sh)
  else
    let s := sh.toNat
    let q := n >>> s
    let rem := n % (1 <<< s)
    let half := 1 <<< (s - 1)
    let up : Bool := decide (half < rem) || (decide (rem = half) && (sticky || q % 2 == 1))
    let m := if up then q + 1 else q
    let m2 := if m = 1 <<< 53 then 1 <<< 52 else m
    let e2 := if m = 1 <<< 53 then e + sh + 1 else e + sh
    if 971 < e2 then inf neg else fin neg m2 e2

/-- Conversion of an integer constant (`2`, `1`) to `double`. -/
def ofNat (n : Nat) : F64 :=
  round false n 0 false

/-- The decimal constant `n/d` as the compiler reads it: the binary64 number
nearest to the quotient (`.938` is `lit 938 1000`). -/
def lit (n d : Nat) : F64 :=
  if d = 0 then nan
  else round false ((n <<< (64 + bitLen d)) / d) (-((64 + bitLen d : Nat) : Int))
    (decide ((n <<< (64 + bitLen d)) % d ≠ 0))

/-- Unary minus of C++ on `double`. -/
def neg : F64 → F64
  | fin s m e => fin (!s) m e
  | inf s => inf (!s)
  | nan => nan

/-- Binary `+` of C++ on `double`: the exact sum, rounded; a zero sum is `+0`
unless both terms are negative. -/
def add : F64 → F64 → F64
  | fin sa ma ea, fin sb mb eb =>
      let e := min ea eb
      let a : Int := (if sa then -1 else 1) * ((ma <<< (ea - e).toNat : Nat) : Int)
      let b : Int := (if sb then -1 else 1) * ((mb <<< (eb - e).toNat : Nat) : Int)
      let s := a + b
      if s = 0 then fin (sa && sb) 0 (-1074) else round (decide (s < 0)) s.natAbs e false
  | fin _ _ _, inf s => inf s
  | inf s, fin _ _ _ => inf s
  | inf s, inf t => if s = t then inf s else nan
  | nan, _ => nan
  | _, nan => nan

/-- Binary `-` of C++ on `double`. -/
def sub (a b : F64) : F64 :=
  add a (neg b)

/-- Binary `*` of C++ on `double`: the exact product, rounded; zero times an
infinity is NaN. -/
def mul : F64 → F64 → F64
  | fin sa ma ea, fin sb mb eb =>
      if ma * mb = 0 then fin (xor sa sb) 0 (-1074)
      else round (xor sa sb) (ma * mb) (ea + eb) false
  | fin sa ma _, inf s => if ma = 0 then nan else inf (xor sa s)
  | inf s, fin sb mb _ => if mb = 0 then nan else inf (xor s sb)
  | inf s, inf t => inf (xor s t)
  | nan, _ => nan
  | _, nan => nan

/-- Binary `/` of C++ on `double`: the exact quotient, rounded (120 extra binary
digits and a sticky bit for the remainder); a non-zero number over zero is an
infinity, `0/0` and `inf/inf` are NaN. -/
def div : F64 → F64 → F64
  | fin sa ma ea, fin sb mb eb =>
      if mb = 0 then (if ma = 0 then nan else inf (xor sa sb))
      else if ma = 0 then fin (xor sa sb) 0 (-1074)
      else round (xor sa sb) ((ma <<< 120) / mb) (ea - eb - 120)
        (decide ((ma <<< 120) % mb ≠ 0))
  | fin sa _ _, inf s => fin (xor sa s) 0 (-1074)
  | inf s, fin sb _ _ => inf (xor s sb)
  | inf _, inf _ => nan
  | nan, _ => nan
  | _, nan => nan

/-- Auxiliary to `isqrt`: sets the binary digits of the root from digit `b - 1`
down. -/
def isqrtAux : Nat → Nat → Nat → Nat
  | 0, r, _ => r
  | b + 1, r, n =>
      if (r + (1 <<< b)) * (r + (1 <<< b)) ≤ n then isqrtAux b (r + (1 <<< b)) n
      else isqrtAux b r n

/-- Integer square root (rounded down), for `n < 2^192`. -/
def isqrt (n : Nat) : Nat :=
  isqrtAux 96 0 n

/-- The `sqrt` of `<cmath>`: the exact root, rounded; NaN below zero. -/
def sqrt : F64 → F64
  | fin s m e =>
      if m = 0 then fin s 0 (-1074)
      else if s then nan
      else
        let k : Nat := 120 + (e % 2).toNat
        let n := m <<< k
        let r := isqrt n
        round false r ((e - k) / 2) (decide (r * r ≠ n))
  | inf false => inf false
  | inf true => nan
  | nan => nan

/-- The comparison `<` of C++ on `double`: false as soon as one side is NaN. -/
def lt : F64 → F64 → Bool
  | fin sa ma ea, fin sb mb eb =>
      let e := min ea eb
      let a : Int := (if sa then -1 else 1) * ((ma <<< (ea - e).toNat : Nat) : Int)
      let b : Int := (if sb then -1 else 1) * ((mb <<< (eb - e).toNat : Nat) : Int)
      decide (a < b)
  | fin _ _ _, inf s => !s
  | inf s, fin _ _ _ => s
  | inf s, inf t => s && !t
  | nan, _ => false
  | _, nan => false

/-- The real number a finite binary64 value stands for; `0` for the special
values. -/
noncomputable def toReal : F64 → ℝ
  | fin s m e => (if s then -1 else 1) * (m : ℝ) * (2 : ℝ) ^ e
  | _ => 0

instance : Add F64 := ⟨add⟩
instance : Sub F64 := ⟨sub⟩
instance : Mul F64 := ⟨mul⟩
instance : Div F64 := ⟨div⟩
instance : Neg F64 := ⟨neg⟩
instance (n : ℕ) : OfNat F64 n := ⟨ofNat n⟩

end F64

/-! ## The macros in binary64

The same source text as above, computed in binary64.  The variables take the
two record fields they read as arguments. -/

namespace Binary64

/-- Proton mass in GeV: `const double M_P = .938;`. -/
def M_P : F64 := F64.lit 938 1000

/-- Neutron mass in GeV: `const double M_N = .939;`. -/
def M_N : F64 := F64.lit 939 1000

/-- Muon mass in GeV: `const double M_MU = .106;`. -/
def M_MU : F64 := F64.lit 106 1000

/-- Binding energy for nucleons in argon-40 in GeV: `const double E_B = .028;`. -/
def E_B : F64 := F64.lit 28 1000

/-- Modelled from the spec: `util::sqr` belongs to CAFAna and is not under
`src/`; the spec's relation `p = sqrt(E^2 - m^2)` makes it the square. -/
def sqr (x : F64) : F64 :=
  x * x

/-- The quasi-elastic formula for neutrino energy, from the muon energy and the
cosine of the muon angle. -/
def QEFormula (Emu cosmu : F64) : F64 :=
  let pmu := F64.sqrt (sqr Emu - sqr M_MU)
  let num := sqr M_P - sqr (M_N - E_B) - sqr M_MU + 2 * (M_N - E_B) * Emu
  let denom := 2 * (M_N - E_B - Emu + pmu * cosmu)
  num / denom

namespace Exercise3Solution

/-- The variable `kConservedETrue` of `Exercise3Solution.C`, on the fields
`LepE` and `eP` of the record. -/
def kConservedETrue (LepE eP : F64) : F64 :=
  let Emu := LepE
  let protonKE := eP
  Emu + (protonKE + M_P) - (M_N - E_B)

/-- The variable `kConservedEReco` of `Exercise3Solution.C`, on the fields
`Elep_reco` and `eRecoP` of the record. -/
def kConservedEReco (Elep_reco eRecoP : F64) : F64 :=
  let Emu := Elep_reco
  let protonKE := eRecoP
  Emu + (protonKE + M_P) - (M_N - E_B)

end Exercise3Solution

end Binary64

/-! ## Sample records -/

/-- A record with the true CCQE final state: one mu- of 1 GeV at 0.3 rad and one
proton of 0.2 GeV kinetic energy, the reconstructed lepton and proton values
equal to the true ones and a reconstructed neutrino energy of 1.2 GeV. -/
noncomputable def sampleMuMinus : SRProxy :=
  { LepPDG := 13, mode := 1, nP := 1, nN := 0, nipip := 0, nipim := 0, nipi0 := 0,
    nikp := 0, nikm := 0, nik0 := 0, niem := 0, nNucleus := 0,
    LepE := Dbl.fin 1.0, LepNuAngle := Dbl.fin 0.3, eP := Dbl.fin 0.2,
    Elep_reco := Dbl.fin 1.0, theta_reco := Dbl.fin 0.3, eRecoP := Dbl.fin 0.2,
    Ev_reco := Dbl.fin 1.2 }

/-- The same record with a mu+ (PDG code -13) as the lepton, as an antineutrino
interaction produces. -/
noncomputable def sampleMuPlus : SRProxy :=
  { sampleMuMinus with LepPDG := -13 }

/-- A CC0pi record that is not CCQE: the mu- with two protons and one neutron. -/
noncomputable def sampleCC0Pi : SRProxy :=
  { sampleMuMinus with nP := 2, nN := 1 }

/-- The mu- record with `INT_MAX = 2147483647` positive pions, as many negative
pions and two neutral pions: the `int` sum of the three counts wraps to 0. -/
noncomputable def sampleOverflow : SRProxy :=
  { sampleMuMinus with nipip := 2147483647, nipim := 2147483647, nipi0 := 2 }

/-- The mu- record with the reconstructed muon energy not a number. -/
noncomputable def sampleRecoNaN : SRProxy :=
  { sampleMuMinus with Elep_reco := Dbl.nan }

/-- The mu- record with a reconstructed muon energy of 0.05 GeV, below the muon
mass. -/
noncomputable def sampleLowReco : SRProxy :=
  { sampleMuMinus with Elep_reco := Dbl.fin 0.05 }

/-- The mu- record with the reconstructed neutrino energy not a number. -/
noncomputable def sampleNoRecoE : SRProxy :=
  { sampleMuMinus with Ev_reco := Dbl.nan }

/-- The mu- record whose muon was not reconstructed: `Elep_reco` is zero. -/
noncomputable def sampleNoMuon : SRProxy :=
  { sampleMuMinus with Elep_reco := Dbl.fin 0 }

/-! ## Arithmetic of finite doubles -/

namespace Dbl

@[simp] theorem fin_add_fin (x y : ℝ) : (fin x + fin y : Dbl) = fin (x + y) := rfl

@[simp] theorem fin_sub_fin (x y : ℝ) : (fin x - fin y : Dbl) = fin (x - y) := by
  show add (fin x) (neg (fin y)) = fin (x - y)
  simp [add, neg, sub_eq_add_neg]

@[simp] theorem fin_mul_fin (x y : ℝ) : (fin x * fin y : Dbl) = fin (x * y) := rfl

@[simp] theorem nan_mul (a : Dbl) : (nan * a : Dbl) = nan := by
  cases a <;> rfl

@[simp] theorem nan_add (a : Dbl) : (nan + a : Dbl) = nan := by
  cases a <;> rfl

@[simp] theorem add_nan (a : Dbl) : (a + nan : Dbl) = nan := by
  cases a <;> rfl

@[simp] theorem mul_nan (a : Dbl) : (a * nan : Dbl) = nan := by
  cases a <;> rfl

@[simp] theorem div_nan (a : Dbl) : (a / nan : Dbl) = nan := by
  cases a <;> rfl

@[simp] theorem ofNat_eq_fin (n : ℕ) : (OfNat.ofNat n : Dbl) = fin (n : ℝ) := rfl

theorem fin_div_fin (x y : ℝ) (hy : y ≠ 0) : (fin x / fin y : Dbl) = fin (x / y) := by
  show div (fin x) (fin y) = fin (x / y)
  simp [div, hy]

theorem sqrt_fin (x : ℝ) (hx : 0 ≤ x) : sqrt (fin x) = fin (Real.sqrt x) := by
  simp [sqrt, not_lt.mpr hx]

theorem sqrt_fin_neg (x : ℝ) (hx : x < 0) : sqrt (fin x) = nan := by
  simp [sqrt, hx]

end Dbl

@[simp] theorem sqr_fin (x : ℝ) : sqr (Dbl.fin x) = Dbl.fin (x * x) := rfl

/-- On finite inputs at or above threshold (`M_MU ^ 2 ≤ Emu ^ 2`) the formula is
one division of two finite numbers. -/
theorem QEFormula_fin (Emu cosmu : ℝ) (hE : M_MU ^ 2 ≤ Emu ^ 2) :
    QEFormula (Dbl.fin Emu) (Dbl.fin cosmu)
      = Dbl.fin (M_P ^ 2 - (M_N - E_B) ^ 2 - M_MU ^ 2 + 2 * (M_N - E_B) * Emu)
        / Dbl.fin (2 * (M_N - E_B - Emu + Real.sqrt (Emu ^ 2 - M_MU ^ 2) * cosmu)) := by
  have h0 : 0 ≤ Emu * Emu - M_MU * M_MU := by nlinarith
  have e1 : Emu ^ 2 - M_MU ^ 2 = Emu * Emu - M_MU * M_MU := by ring
  simp only [QEFormula, sqr_fin, Dbl.fin_sub_fin, Dbl.sqrt_fin _ h0, Dbl.fin_mul_fin,
    Dbl.fin_add_fin, Dbl.ofNat_eq_fin, e1, Nat.cast_ofNat]
  congr 2
  ring

/-- Below threshold (`Emu ^ 2 < M_MU ^ 2`) the radicand is negative and the NaN of
`sqrt` reaches the result. -/
theorem QEFormula_nan (Emu cosmu : ℝ) (hE : Emu ^ 2 < M_MU ^ 2) :
    QEFormula (Dbl.fin Emu) (Dbl.fin cosmu) = Dbl.nan := by
  have h0 : Emu * Emu - M_MU * M_MU < 0 := by nlinarith
  simp only [QEFormula, sqr_fin, Dbl.fin_sub_fin, Dbl.sqrt_fin_neg _ h0, Dbl.fin_mul_fin,
    Dbl.fin_add_fin, Dbl.ofNat_eq_fin, Dbl.nan_mul, Dbl.add_nan, Dbl.mul_nan, Dbl.div_nan]

/-- A finite numerator over a finite non-zero denominator is finite. -/
theorem QEFormula_fin_value (Emu cosmu : ℝ) (hE : M_MU ^ 2 ≤ Emu ^ 2)
    (hden : 2 * (M_N - E_B - Emu + Real.sqrt (Emu ^ 2 - M_MU ^ 2) * cosmu) ≠ 0) :
    QEFormula (Dbl.fin Emu) (Dbl.fin cosmu)
      = Dbl.fin ((M_P ^ 2 - (M_N - E_B) ^ 2 - M_MU ^ 2 + 2 * (M_N - E_B) * Emu)
        / (2 * (M_N - E_B - Emu + Real.sqrt (Emu ^ 2 - M_MU ^ 2) * cosmu))) := by
  rw [QEFormula_fin Emu cosmu hE, Dbl.fin_div_fin _ _ hden]

/-- At or above the muon mass the squared energy is at or above the squared mass. -/
theorem sq_threshold (Emu : ℝ) (hE : M_MU ≤ Emu) : M_MU ^ 2 ≤ Emu ^ 2 := by
  have h0 : (0 : ℝ) ≤ M_MU := by unfold M_MU; norm_num
  nlinarith

/-! ## The quasi-elastic formula: value -/

/-- C1: for every real lepton energy and cosine, `QEFormula` is the quotient
`(0.038687 + 1.822*Emu) / (2*(0.911 - Emu + sqrt(Emu^2 - 0.011236)*cosmu))` in
exact arithmetic, and the numerator and the denominator of the source reduce to
these coefficients. -/
theorem QEFormula_closed_form (Emu cosmu : ℝ) :
    QEFormula (Dbl.fin Emu) (Dbl.fin cosmu)
        = Dbl.fin (0.038687 + 1.822 * Emu)
          / (2 * (Dbl.fin (0.911 - Emu)
              + Dbl.sqrt (Dbl.fin (Emu ^ 2 - 0.011236)) * Dbl.fin cosmu))
      ∧ M_P ^ 2 - (M_N - E_B) ^ 2 - M_MU ^ 2 + 2 * (M_N - E_B) * Emu
          = 0.038687 + 1.822 * Emu
      ∧ 2 * (M_N - E_B - Emu + Real.sqrt (Emu ^ 2 - M_MU ^ 2) * cosmu)
          = 2 * (0.911 - Emu + Real.sqrt (Emu ^ 2 - 0.011236) * cosmu) := by
  have e1 : Emu * Emu - M_MU * M_MU = Emu ^ 2 - 0.011236 := by
    unfold M_MU; ring
  have e2 : M_MU ^ 2 = 0.011236 := by unfold M_MU; norm_num
  have hn : M_P * M_P - (M_N - E_B) * (M_N - E_B) - M_MU * M_MU + 2 * (M_N - E_B) * Emu
      = 0.038687 + 1.822 * Emu := by
    unfold M_P M_N E_B M_MU; ring
  have hd : M_N - E_B - Emu = 0.911 - Emu := by
    unfold M_N E_B; ring
  refine ⟨?_, ?_, ?_⟩
  · simp only [QEFormula, sqr_fin, Dbl.fin_sub_fin, Dbl.fin_mul_fin, Dbl.fin_add_fin,
      Dbl.ofNat_eq_fin, Nat.cast_ofNat, e1, hn, hd]
  · unfold M_P M_N E_B M_MU; ring
  · rw [e2]; unfold M_N E_B; ring

/-- The double `1` is the number 1 and the double `0` the number 0. -/
theorem F64.toReal_one_zero : F64.toReal (1 : F64) = 1 ∧ F64.toReal (0 : F64) = 0 := by
  have h1 : (1 : F64) = F64.fin false 4503599627370496 (-52) := by decide
  have h0 : (0 : F64) = F64.fin false 0 (-1074) := by decide
  rw [h1, h0]
  unfold F64.toReal
  norm_num

/-- C2, refuted as stated: in binary64 `QEFormula(1, 0)` is the double
`-5884683483042920 * 2^-49` (`-10.453297752808979`); the lepton energy is above
the muon mass and the denominator is not zero, yet this value does not satisfy
the conservation equation (its only solution at these inputs,
`-1860687/178000`, is not a binary64 number). -/
theorem QEFormula_conservation_fails_binary64 :
    Binary64.QEFormula 1 0 = F64.fin true 5884683483042920 (-49)
      ∧ F64.toReal (1 : F64) = 1 ∧ F64.toReal (0 : F64) = 0
      ∧ M_MU ≤ 1
      ∧ M_N - E_B - 1 + Real.sqrt (1 ^ 2 - M_MU ^ 2) * 0 ≠ 0
      ∧ (F64.toReal (Binary64.QEFormula 1 0) + (M_N - E_B) - 1) ^ 2
          - (F64.toReal (Binary64.QEFormula 1 0) ^ 2 + Real.sqrt (1 ^ 2 - M_MU ^ 2) ^ 2
              - 2 * F64.toReal (Binary64.QEFormula 1 0) * Real.sqrt (1 ^ 2 - M_MU ^ 2) * 0)
        ≠ M_P ^ 2 := by
  have hv : Binary64.QEFormula 1 0 = F64.fin true 5884683483042920 (-49) := by decide
  have hp : Real.sqrt (1 ^ 2 - M_MU ^ 2) ^ 2 = 1 ^ 2 - M_MU ^ 2 :=
    Real.sq_sqrt (by unfold M_MU; norm_num)
  refine ⟨hv, F64.toReal_one_zero.1, F64.toReal_one_zero.2, by unfold M_MU; norm_num,
    by unfold M_N E_B; norm_num, ?_⟩
  rw [hv, hp]
  unfold F64.toReal M_P M_N E_B M_MU
  norm_num

/-- C2, amended: over the exact reals (the formula evaluated without the
rounding and the overflow of binary64), at or above threshold and off the zero
of the denominator, the returned energy is finite and satisfies the
energy-momentum conservation equation with the outgoing nucleon on the proton
mass shell. -/
theorem QEFormula_conservation (Emu cosmu : ℝ) (hE : M_MU ≤ Emu)
    (hden : M_N - E_B - Emu + Real.sqrt (Emu ^ 2 - M_MU ^ 2) * cosmu ≠ 0) :
    ∃ Enu : ℝ, QEFormula (Dbl.fin Emu) (Dbl.fin cosmu) = Dbl.fin Enu
      ∧ (Enu + (M_N - E_B) - Emu) ^ 2
          - (Enu ^ 2 + Real.sqrt (Emu ^ 2 - M_MU ^ 2) ^ 2
              - 2 * Enu * Real.sqrt (Emu ^ 2 - M_MU ^ 2) * cosmu)
        = M_P ^ 2 := by
  have hsq := sq_threshold Emu hE
  have h2 : 2 * (M_N - E_B - Emu + Real.sqrt (Emu ^ 2 - M_MU ^ 2) * cosmu) ≠ 0 :=
    mul_ne_zero two_ne_zero hden
  refine ⟨_, QEFormula_fin_value Emu cosmu hsq h2, ?_⟩
  have hp : Real.sqrt (Emu ^ 2 - M_MU ^ 2) ^ 2 = Emu ^ 2 - M_MU ^ 2 :=
    Real.sq_sqrt (by linarith)
  generalize Real.sqrt (Emu ^ 2 - M_MU ^ 2) = p at hden h2 hp ⊢
  have hEnu := div_mul_cancel₀
    (M_P ^ 2 - (M_N - E_B) ^ 2 - M_MU ^ 2 + 2 * (M_N - E_B) * Emu) h2
  generalize (M_P ^ 2 - (M_N - E_B) ^ 2 - M_MU ^ 2 + 2 * (M_N - E_B) * Emu)
    / (2 * (M_N - E_B - Emu + p * cosmu)) = Enu at hEnu ⊢
  linear_combination hEnu - hp

/-- Witness for the amended C2 at `Emu = 0.1325`, `cosmu = 1` (where `pmu = 0.0795`). -/
theorem QEFormula_conservation_witness :
    M_MU ≤ 0.1325
      ∧ M_N - E_B - 0.1325 + Real.sqrt (0.1325 ^ 2 - M_MU ^ 2) * 1 ≠ 0
      ∧ ∃ Enu : ℝ, QEFormula (Dbl.fin 0.1325) (Dbl.fin 1) = Dbl.fin Enu
          ∧ (Enu + (M_N - E_B) - 0.1325) ^ 2
              - (Enu ^ 2 + Real.sqrt (0.1325 ^ 2 - M_MU ^ 2) ^ 2
                  - 2 * Enu * Real.sqrt (0.1325 ^ 2 - M_MU ^ 2) * 1)
            = M_P ^ 2 :=
  have h1 : M_MU ≤ 0.1325 := by unfold M_MU; norm_num
  have h2 : M_N - E_B - 0.1325 + Real.sqrt (0.1325 ^ 2 - M_MU ^ 2) * 1 ≠ 0 := by
    have hs := Real.sqrt_nonneg (0.1325 ^ 2 - M_MU ^ 2)
    have : (0 : ℝ) < M_N - E_B - 0.1325 := by unfold M_N E_B; norm_num
    linarith
  ⟨h1, h2, QEFormula_conservation 0.1325 1 h1 h2⟩

/-- C3: the known value.  `QEFormula(1.0, 1.0)` is the reference expression
`1.860687 / (2*(sqrt(0.988764) - 0.089))` over the reals, which lies strictly
between 1.027 and 1.028. -/
theorem QEFormula_known_value :
    QEFormula (Dbl.fin 1.0) (Dbl.fin 1.0)
        = Dbl.fin (1.860687 / (2 * (Real.sqrt 0.988764 - 0.089)))
      ∧ (1.027 : ℝ) < 1.860687 / (2 * (Real.sqrt 0.988764 - 0.089))
      ∧ 1.860687 / (2 * (Real.sqrt 0.988764 - 0.089)) < (1.028 : ℝ) := by
  have hlo : (0.9941 : ℝ) < Real.sqrt 0.988764 := by
    rw [Real.lt_sqrt (by norm_num)]; norm_num
  have hhi : Real.sqrt 0.988764 < (0.9948 : ℝ) := by
    rw [Real.sqrt_lt' (by norm_num)]; norm_num
  have hpos : (0 : ℝ) < 2 * (Real.sqrt 0.988764 - 0.089) := by linarith
  have hsq : M_MU ^ 2 ≤ (1.0 : ℝ) ^ 2 := by unfold M_MU; norm_num
  have hrad : (1.0 : ℝ) ^ 2 - M_MU ^ 2 = 0.988764 := by unfold M_MU; norm_num
  refine ⟨?_, ?_, ?_⟩
  · have hden : 2 * (M_N - E_B - 1.0 + Real.sqrt ((1.0 : ℝ) ^ 2 - M_MU ^ 2) * 1.0) ≠ 0 := by
      rw [hrad]; unfold M_N E_B; intro h; linarith
    rw [QEFormula_fin_value 1.0 1.0 hsq hden, hrad]
    congr 2
    · unfold M_P M_N E_B M_MU; norm_num
    · unfold M_N E_B; ring
  · rw [lt_div_iff₀ hpos]; linarith
  · rw [div_lt_iff₀ hpos]; linarith

/-- The double nearest to `1e200` and the real number it stands for. -/
theorem F64.toReal_1e200 :
    F64.lit (10 ^ 200) 1 = F64.fin false 5883593420661338 612
      ∧ F64.toReal (F64.lit (10 ^ 200) 1) = 5883593420661338 * 2 ^ 612 := by
  have h : F64.lit (10 ^ 200) 1 = F64.fin false 5883593420661338 612 := by decide
  refine ⟨h, ?_⟩
  rw [h]
  unfold F64.toReal
  norm_num

/-- C4, refuted as stated: at `Emu = 2`, `cosmu = 0` the lepton energy is above
the muon mass, the cosine is in `[-1, 1]` and the denominator is non-zero, yet
the result is the negative number `-(3.682687 / 2.178)`; in binary64 it is the
negative double `-7614943893903659 * 2^-52` (`-1.6908572084481175`).  And at
`Emu = 1e200`, `cosmu = 1`, where the denominator is strictly positive, the
binary64 result is `+0`, not a positive number: `sqr(Emu)` has overflowed. -/
theorem QEFormula_negative_at_two_zero :
    M_MU < 2 ∧ (-1 : ℝ) ≤ 0 ∧ (0 : ℝ) ≤ 1
      ∧ 2 * (M_N - E_B - 2 + Real.sqrt ((2 : ℝ) ^ 2 - M_MU ^ 2) * 0) ≠ 0
      ∧ QEFormula (Dbl.fin 2) (Dbl.fin 0) = Dbl.fin (-(3.682687 / 2.178))
      ∧ ¬ (0 : ℝ) < -(3.682687 / 2.178)
      ∧ Binary64.QEFormula 2 0 = F64.fin true 7614943893903659 (-52)
      ∧ M_MU < F64.toReal (F64.lit (10 ^ 200) 1)
      ∧ 0 < 2 * (M_N - E_B - F64.toReal (F64.lit (10 ^ 200) 1)
          + Real.sqrt (F64.toReal (F64.lit (10 ^ 200) 1) ^ 2 - M_MU ^ 2) * 1)
      ∧ Binary64.QEFormula (F64.lit (10 ^ 200) 1) 1 = F64.fin false 0 (-1074) := by
  have hsq : M_MU ^ 2 ≤ (2 : ℝ) ^ 2 := by unfold M_MU; norm_num
  have hden : 2 * (M_N - E_B - 2 + Real.sqrt ((2 : ℝ) ^ 2 - M_MU ^ 2) * 0) ≠ 0 := by
    unfold M_N E_B; norm_num
  have hbig : F64.toReal (F64.lit (10 ^ 200) 1) - 0.911
      < Real.sqrt (F64.toReal (F64.lit (10 ^ 200) 1) ^ 2 - M_MU ^ 2) := by
    rw [F64.toReal_1e200.2, Real.lt_sqrt (by norm_num)]
    unfold M_MU
    norm_num
  refine ⟨by unfold M_MU; norm_num, by norm_num, by norm_num, hden, ?_, by norm_num,
    by decide, ?_, ?_, by decide⟩
  · rw [QEFormula_fin_value 2 0 hsq hden]
    congr 1
    unfold M_P M_N E_B M_MU
    norm_num
  · rw [F64.toReal_1e200.2]; unfold M_MU; norm_num
  · have hA : M_N - E_B = 0.911 := by unfold M_N E_B; norm_num
    rw [hA]
    linarith

/-- C4, amended: over the exact reals (the formula evaluated without the
rounding and the overflow of binary64), for every lepton energy above the muon
mass and every cosine in `[-1, 1]` at which the denominator is strictly
positive, `QEFormula` returns a finite, strictly positive value. -/
theorem QEFormula_pos (Emu cosmu : ℝ) (hE : M_MU < Emu) (_hlo : -1 ≤ cosmu)
    (_hhi : cosmu ≤ 1)
    (hden : 0 < 2 * (M_N - E_B - Emu + Real.sqrt (Emu ^ 2 - M_MU ^ 2) * cosmu)) :
    ∃ Enu : ℝ, QEFormula (Dbl.fin Emu) (Dbl.fin cosmu) = Dbl.fin Enu ∧ 0 < Enu := by
  refine ⟨_, QEFormula_fin_value Emu cosmu (sq_threshold Emu hE.le) hden.ne', ?_⟩
  apply div_pos _ hden
  have hm : (0 : ℝ) < M_MU := by unfold M_MU; norm_num
  have hE0 : 0 < Emu := lt_trans hm hE
  have hc : M_P ^ 2 - (M_N - E_B) ^ 2 - M_MU ^ 2 + 2 * (M_N - E_B) * Emu
      = 0.038687 + 1.822 * Emu := by
    unfold M_P M_N E_B M_MU; ring
  rw [hc]
  positivity

/-- Witness for the amended C4 at `Emu = 0.1325`, `cosmu = 1`. -/
theorem QEFormula_pos_witness :
    M_MU < 0.1325 ∧ (-1 : ℝ) ≤ 1 ∧ (1 : ℝ) ≤ 1
      ∧ 0 < 2 * (M_N - E_B - 0.1325 + Real.sqrt (0.1325 ^ 2 - M_MU ^ 2) * 1)
      ∧ ∃ Enu : ℝ, QEFormula (Dbl.fin 0.1325) (Dbl.fin 1) = Dbl.fin Enu ∧ 0 < Enu :=
  have h1 : M_MU < 0.1325 := by unfold M_MU; norm_num
  have h2 : 0 < 2 * (M_N - E_B - 0.1325 + Real.sqrt (0.1325 ^ 2 - M_MU ^ 2) * 1) := by
    have hs := Real.sqrt_nonneg (0.1325 ^ 2 - M_MU ^ 2)
    have : (0 : ℝ) < M_N - E_B - 0.1325 := by unfold M_N E_B; norm_num
    linarith
  ⟨h1, by norm_num, le_refl 1, h2, QEFormula_pos 0.1325 1 h1 (by norm_num) (le_refl 1) h2⟩

/-- C7: `QEFormula` is a total map from two doubles to one double that is its
quotient `num/denom` at every pair of inputs, in exact arithmetic and in
binary64 alike, with no guard: in binary64 the lepton energy `0.05`, below the
muon mass, comes back as NaN, and at `Emu = M_N - E_B`, `cosmu = 0`, where the
computed denominator is zero, the result is `+inf`. -/
theorem QEFormula_unguarded :
    (∀ a b : Dbl, QEFormula a b
        = (sqr M_P - sqr (M_N - E_B) - sqr M_MU + 2 * (M_N - E_B) * a)
          / (2 * (M_N - E_B - a + Dbl.sqrt (sqr a - sqr M_MU) * b)))
      ∧ (∀ a b : F64, Binary64.QEFormula a b
        = (Binary64.sqr Binary64.M_P - Binary64.sqr (Binary64.M_N - Binary64.E_B)
            - Binary64.sqr Binary64.M_MU + 2 * (Binary64.M_N - Binary64.E_B) * a)
          / (2 * (Binary64.M_N - Binary64.E_B - a
              + F64.sqrt (Binary64.sqr a - Binary64.sqr Binary64.M_MU) * b)))
      ∧ F64.lt (F64.lit 5 100) Binary64.M_MU = true
      ∧ Binary64.QEFormula (F64.lit 5 100) 1 = F64.nan
      ∧ 2 * (Binary64.M_N - Binary64.E_B - (Binary64.M_N - Binary64.E_B)
          + F64.sqrt (Binary64.sqr (Binary64.M_N - Binary64.E_B)
              - Binary64.sqr Binary64.M_MU) * 0) = F64.fin false 0 (-1074)
      ∧ Binary64.QEFormula (Binary64.M_N - Binary64.E_B) 0 = F64.inf false := by
  refine ⟨fun a b => rfl, fun a b => rfl, by decide, by decide, by decide, by decide⟩

/-- C8, refuted as stated: a lepton energy of `0.05`, below the muon mass, comes
back as NaN and not as an error, and a lepton energy of `-1`, also below the muon
mass, comes back as the number `-(1.783313 / 3.822)`. -/
theorem QEFormula_invalid_input_returns :
    (0.05 : ℝ) < M_MU ∧ QEFormula (Dbl.fin 0.05) (Dbl.fin 1) = Dbl.nan
      ∧ (-1 : ℝ) < M_MU
      ∧ QEFormula (Dbl.fin (-1)) (Dbl.fin 0) = Dbl.fin (-(1.783313 / 3.822)) := by
  have h1 : (0.05 : ℝ) ^ 2 < M_MU ^ 2 := by unfold M_MU; norm_num
  have hsq : M_MU ^ 2 ≤ (-1 : ℝ) ^ 2 := by unfold M_MU; norm_num
  have hden : 2 * (M_N - E_B - (-1) + Real.sqrt ((-1 : ℝ) ^ 2 - M_MU ^ 2) * 0) ≠ 0 := by
    unfold M_N E_B; norm_num
  refine ⟨by unfold M_MU; norm_num, QEFormula_nan 0.05 1 h1, by unfold M_MU; norm_num, ?_⟩
  rw [QEFormula_fin_value (-1) 0 hsq hden]
  congr 1
  unfold M_P M_N E_B M_MU
  norm_num

/-- C8, amended: `QEFormula` has no error result: at every pair of doubles it
returns the double `num/denom`, and numerically invalid or degenerate input is
not surfaced.  In binary64 a lepton energy below the lepton mass comes back as
NaN (`0.05`) or as an ordinary number (`-1`), a denominator that is computed
as zero as an infinity (`Emu = 1`, `cosmu = 0.08950425536125796`), and an
energy whose square overflows as NaN (`Emu = 1e200`, `cosmu = 0`). -/
theorem QEFormula_no_error_result (a b : F64) :
    Binary64.QEFormula a b
        = (Binary64.sqr Binary64.M_P - Binary64.sqr (Binary64.M_N - Binary64.E_B)
            - Binary64.sqr Binary64.M_MU + 2 * (Binary64.M_N - Binary64.E_B) * a)
          / (2 * (Binary64.M_N - Binary64.E_B - a
              + F64.sqrt (Binary64.sqr a - Binary64.sqr Binary64.M_MU) * b))
      ∧ Binary64.QEFormula (F64.lit 5 100) (F64.lit 5 10) = F64.nan
      ∧ Binary64.QEFormula (-1) 0 = F64.fin true 8405366574866521 (-54)
      ∧ Binary64.QEFormula 1 (F64.fin false 6449461297488561 (-56)) = F64.inf false
      ∧ Binary64.QEFormula (F64.lit (10 ^ 200) 1) 0 = F64.nan := by
  refine ⟨rfl, by decide, by decide, by decide, by decide⟩

/-! ## Final-state cuts -/

/-- Addition of `int` is the mathematical sum as long as that sum is in
`[0, INT_MAX]`. -/
theorem cint.add_eq (a b : Int) (h0 : 0 ≤ a + b) (h1 : a + b ≤ 2147483647) :
    cint.add a b = a + b := by
  unfold cint.add cint.wrap
  omega

/-- C9, refuted as stated: on the sample record with `nipip = nipim = 2147483647`
and `nipi0 = 2` (every count non-negative) the `int` sum `totOthers` wraps to 0
and the cut of `Exercise2Solution.C` passes, although three of the nine other
counts are not zero. -/
theorem Exercise2Solution_kHasQEFinalState_wraps :
    (0 ≤ sampleOverflow.nN ∧ 0 ≤ sampleOverflow.nipip ∧ 0 ≤ sampleOverflow.nipim
        ∧ 0 ≤ sampleOverflow.nipi0 ∧ 0 ≤ sampleOverflow.nikp ∧ 0 ≤ sampleOverflow.nikm
        ∧ 0 ≤ sampleOverflow.nik0 ∧ 0 ≤ sampleOverflow.niem ∧ 0 ≤ sampleOverflow.nNucleus)
      ∧ 0 ≤ sampleOverflow.nP
      ∧ sampleOverflow.nipip = 2147483647
      ∧ sampleOverflow.nipim = 2147483647
      ∧ sampleOverflow.nipi0 = 2
      ∧ Exercise2Solution.kHasQEFinalState sampleOverflow = true
      ∧ ¬ (sampleOverflow.LepPDG = 13 ∧ sampleOverflow.nP = 1 ∧ sampleOverflow.nN = 0
          ∧ sampleOverflow.nipip = 0 ∧ sampleOverflow.nipim = 0 ∧ sampleOverflow.nipi0 = 0
          ∧ sampleOverflow.nikp = 0 ∧ sampleOverflow.nikm = 0 ∧ sampleOverflow.nik0 = 0
          ∧ sampleOverflow.niem = 0 ∧ sampleOverflow.nNucleus = 0) := by
  decide

/-- C9, amended: in `Exercise2Solution.C`, on a record whose nine other
multiplicities are non-negative and add up to at most `INT_MAX = 2147483647`
(no overflow of the `int` sum), `kHasQEFinalState` passes exactly when the
lepton is a mu- (`LepPDG = 13`), there is one proton and each of the nine
other counts is zero. -/
theorem Exercise2Solution_kHasQEFinalState_iff (sr : SRProxy)
    (h : 0 ≤ sr.nN ∧ 0 ≤ sr.nipip ∧ 0 ≤ sr.nipim ∧ 0 ≤ sr.nipi0 ∧ 0 ≤ sr.nikp
      ∧ 0 ≤ sr.nikm ∧ 0 ≤ sr.nik0 ∧ 0 ≤ sr.niem ∧ 0 ≤ sr.nNucleus)
    (hsum : sr.nN + sr.nipip + sr.nipim + sr.nipi0 + sr.nikp + sr.nikm + sr.nik0
      + sr.niem + sr.nNucleus ≤ 2147483647) :
    Exercise2Solution.kHasQEFinalState sr = true
      ↔ (sr.LepPDG = 13 ∧ sr.nP = 1 ∧ sr.nN = 0 ∧ sr.nipip = 0 ∧ sr.nipim = 0
          ∧ sr.nipi0 = 0 ∧ sr.nikp = 0 ∧ sr.nikm = 0 ∧ sr.nik0 = 0 ∧ sr.niem = 0
          ∧ sr.nNucleus = 0) := by
  obtain ⟨h1, h2, h3, h4, h5, h6, h7, h8, h9⟩ := h
  simp only [Exercise2Solution.kHasQEFinalState, PDG_MU, Bool.and_eq_true, beq_iff_eq]
  rw [cint.add_eq sr.nN sr.nipip (by omega) (by omega),
    cint.add_eq _ sr.nipim (by omega) (by omega),
    cint.add_eq _ sr.nipi0 (by omega) (by omega),
    cint.add_eq _ sr.nikp (by omega) (by omega),
    cint.add_eq _ sr.nikm (by omega) (by omega),
    cint.add_eq _ sr.nik0 (by omega) (by omega),
    cint.add_eq _ sr.niem (by omega) (by omega),
    cint.add_eq _ sr.nNucleus (by omega) (by omega)]
  constructor
  · rintro ⟨⟨e1, e2⟩, e3⟩
    refine ⟨e1, e2, ?_, ?_, ?_, ?_, ?_, ?_, ?_, ?_, ?_⟩ <;> omega
  · rintro ⟨e1, e2, e3⟩
    refine ⟨⟨e1, e2⟩, ?_⟩
    omega

/-- Witness for the amended C9 at the sample mu- record. -/
theorem Exercise2Solution_kHasQEFinalState_iff_witness :
    (0 ≤ sampleMuMinus.nN ∧ 0 ≤ sampleMuMinus.nipip ∧ 0 ≤ sampleMuMinus.nipim
        ∧ 0 ≤ sampleMuMinus.nipi0 ∧ 0 ≤ sampleMuMinus.nikp ∧ 0 ≤ sampleMuMinus.nikm
        ∧ 0 ≤ sampleMuMinus.nik0 ∧ 0 ≤ sampleMuMinus.niem ∧ 0 ≤ sampleMuMinus.nNucleus)
      ∧ (sampleMuMinus.nN + sampleMuMinus.nipip + sampleMuMinus.nipim + sampleMuMinus.nipi0
          + sampleMuMinus.nikp + sampleMuMinus.nikm + sampleMuMinus.nik0
          + sampleMuMinus.niem + sampleMuMinus.nNucleus ≤ 2147483647)
      ∧ (Exercise2Solution.kHasQEFinalState sampleMuMinus = true
        ↔ (sampleMuMinus.LepPDG = 13 ∧ sampleMuMinus.nP = 1 ∧ sampleMuMinus.nN = 0
          ∧ sampleMuMinus.nipip = 0 ∧ sampleMuMinus.nipim = 0 ∧ sampleMuMinus.nipi0 = 0
          ∧ sampleMuMinus.nikp = 0 ∧ sampleMuMinus.nikm = 0 ∧ sampleMuMinus.nik0 = 0
          ∧ sampleMuMinus.niem = 0 ∧ sampleMuMinus.nNucleus = 0)) :=
  have h : 0 ≤ sampleMuMinus.nN ∧ 0 ≤ sampleMuMinus.nipip ∧ 0 ≤ sampleMuMinus.nipim
      ∧ 0 ≤ sampleMuMinus.nipi0 ∧ 0 ≤ sampleMuMinus.nikp ∧ 0 ≤ sampleMuMinus.nikm
      ∧ 0 ≤ sampleMuMinus.nik0 ∧ 0 ≤ sampleMuMinus.niem ∧ 0 ≤ sampleMuMinus.nNucleus := by
    decide
  have hsum : sampleMuMinus.nN + sampleMuMinus.nipip + sampleMuMinus.nipim
      + sampleMuMinus.nipi0 + sampleMuMinus.nikp + sampleMuMinus.nikm + sampleMuMinus.nik0
      + sampleMuMinus.niem + sampleMuMinus.nNucleus ≤ 2147483647 := by
    decide
  ⟨h, hsum, Exercise2Solution_kHasQEFinalState_iff sampleMuMinus h hsum⟩

/-- C10, the code at the failing input: on the sample record with a mu+
(`LepPDG = -13`), one proton and nothing else, the cut `kHasQEFinalState` of
`Exercise3Solution.C` and of `firstAnalysisSolution.C` passes, while the cut of
`Exercise2Solution.C` rejects it. -/
theorem kHasQEFinalState_passes_muPlus :
    sampleMuPlus.LepPDG = -13
      ∧ Exercise3Solution.kHasQEFinalState sampleMuPlus = true
      ∧ firstAnalysisSolution.kHasQEFinalState sampleMuPlus = true
      ∧ Exercise2Solution.kHasQEFinalState sampleMuPlus = false := by
  refine ⟨rfl, ?_, ?_, ?_⟩ <;> decide

/-- C11, refuted as stated: on the sample record with `nipip = nipim = 2147483647`
and `nipi0 = 2` (non-negative pion counts) the `int` sum `totPi` wraps to 0 and
the cuts of `Exercise2Solution.C` and `Exercise2aSolution.C` pass, although
there are pions. -/
theorem kHasCC0PiFinalState_wraps :
    (0 ≤ sampleOverflow.nipip ∧ 0 ≤ sampleOverflow.nipim ∧ 0 ≤ sampleOverflow.nipi0)
      ∧ sampleOverflow.nipip = 2147483647
      ∧ sampleOverflow.nipim = 2147483647
      ∧ sampleOverflow.nipi0 = 2
      ∧ Exercise2Solution.kHasCC0PiFinalState sampleOverflow = true
      ∧ Exercise2aSolution.kHasCC0PiFinalState sampleOverflow = true
      ∧ ¬ (sampleOverflow.LepPDG = 13 ∧ 1 ≤ sampleOverflow.nP ∧ sampleOverflow.nipip = 0
          ∧ sampleOverflow.nipim = 0 ∧ sampleOverflow.nipi0 = 0) := by
  decide

/-- C11, amended: in `Exercise2Solution.C` and `Exercise2aSolution.C`, on a record
whose pion counts are non-negative and add up to at most
`INT_MAX = 2147483647` (no overflow of the `int` sum), `kHasCC0PiFinalState`
passes exactly when the lepton is a mu- (`LepPDG = 13`), there is at least
one proton and the three pion counts are zero; no other count enters the
condition. -/
theorem kHasCC0PiFinalState_iff (sr : SRProxy)
    (h : 0 ≤ sr.nipip ∧ 0 ≤ sr.nipim ∧ 0 ≤ sr.nipi0)
    (hsum : sr.nipip + sr.nipim + sr.nipi0 ≤ 2147483647) :
    (Exercise2Solution.kHasCC0PiFinalState sr = true
        ↔ (sr.LepPDG = 13 ∧ 1 ≤ sr.nP ∧ sr.nipip = 0 ∧ sr.nipim = 0 ∧ sr.nipi0 = 0))
      ∧ (Exercise2aSolution.kHasCC0PiFinalState sr = true
        ↔ (sr.LepPDG = 13 ∧ 1 ≤ sr.nP ∧ sr.nipip = 0 ∧ sr.nipim = 0 ∧ sr.nipi0 = 0)) := by
  obtain ⟨h1, h2, h3⟩ := h
  simp only [Exercise2Solution.kHasCC0PiFinalState, Exercise2aSolution.kHasCC0PiFinalState,
    PDG_MU, Bool.and_eq_true, beq_iff_eq, decide_eq_true_eq, ge_iff_le]
  rw [cint.add_eq sr.nipip sr.nipim (by omega) (by omega),
    cint.add_eq _ sr.nipi0 (by omega) (by omega)]
  constructor <;> constructor
  all_goals first
    | (rintro ⟨⟨e1, e2⟩, e3⟩
       refine ⟨e1, e2, ?_, ?_, ?_⟩ <;> omega)
    | (rintro ⟨e1, e2, e3⟩
       refine ⟨⟨e1, e2⟩, ?_⟩
       omega)

/-- Witness for the amended C11 at the sample record with two protons and one
neutron. -/
theorem kHasCC0PiFinalState_iff_witness :
    (0 ≤ sampleCC0Pi.nipip ∧ 0 ≤ sampleCC0Pi.nipim ∧ 0 ≤ sampleCC0Pi.nipi0)
      ∧ (sampleCC0Pi.nipip + sampleCC0Pi.nipim + sampleCC0Pi.nipi0 ≤ 2147483647)
      ∧ (Exercise2Solution.kHasCC0PiFinalState sampleCC0Pi = true
          ↔ (sampleCC0Pi.LepPDG = 13 ∧ 1 ≤ sampleCC0Pi.nP ∧ sampleCC0Pi.nipip = 0
              ∧ sampleCC0Pi.nipim = 0 ∧ sampleCC0Pi.nipi0 = 0))
      ∧ (Exercise2aSolution.kHasCC0PiFinalState sampleCC0Pi = true
          ↔ (sampleCC0Pi.LepPDG = 13 ∧ 1 ≤ sampleCC0Pi.nP ∧ sampleCC0Pi.nipip = 0
              ∧ sampleCC0Pi.nipim = 0 ∧ sampleCC0Pi.nipi0 = 0)) :=
  have h : 0 ≤ sampleCC0Pi.nipip ∧ 0 ≤ sampleCC0Pi.nipim ∧ 0 ≤ sampleCC0Pi.nipi0 := by
    decide
  have hsum : sampleCC0Pi.nipip + sampleCC0Pi.nipim + sampleCC0Pi.nipi0 ≤ 2147483647 := by
    decide
  ⟨h, hsum, kHasCC0PiFinalState_iff sampleCC0Pi h hsum⟩

/-- C12, the code at the failing input: on the sample record with a mu+
(`LepPDG = -13`), one proton and no pion, the cut `kHasCC0PiFinalState` of
`firstAnalysisSolution.C` passes, while the cuts of `Exercise2Solution.C` and
`Exercise2aSolution.C` reject it. -/
theorem kHasCC0PiFinalState_passes_muPlus :
    sampleMuPlus.LepPDG = -13
      ∧ firstAnalysisSolution.kHasCC0PiFinalState sampleMuPlus = true
      ∧ Exercise2Solution.kHasCC0PiFinalState sampleMuPlus = false
      ∧ Exercise2aSolution.kHasCC0PiFinalState sampleMuPlus = false := by
  refine ⟨rfl, ?_, ?_, ?_⟩ <;> decide

/-! ## Variables -/

/-- The literal `0.` is the finite zero. -/
theorem Dbl.zero_eq_fin : (0 : Dbl) = Dbl.fin 0 := by
  show Dbl.fin ((0 : ℕ) : ℝ) = Dbl.fin 0
  rw [Nat.cast_zero]

/-- The comparison `== 0.` holds of the finite zero only: not of NaN, not of an
infinity, not of another number. -/
theorem Dbl.eq_zero_iff (a : Dbl) : Dbl.eq a 0 = true ↔ a = Dbl.fin 0 := by
  rw [Dbl.zero_eq_fin]
  cases a with
  | fin x => simp [Dbl.eq]
  | inf s => simp [Dbl.eq]
  | nan => simp [Dbl.eq]

/-- C13: in both macros `kRecoE` returns 0 when `Ev_reco` is NaN and `Ev_reco`
unchanged otherwise, so that its result is never NaN. -/
theorem kRecoE_never_nan (sr : SRProxy) :
    ((sr.Ev_reco = Dbl.nan → firstAnalysisSolution.kRecoE sr = Dbl.fin 0)
        ∧ (sr.Ev_reco ≠ Dbl.nan → firstAnalysisSolution.kRecoE sr = sr.Ev_reco)
        ∧ firstAnalysisSolution.kRecoE sr ≠ Dbl.nan
        ∧ Dbl.isnan (firstAnalysisSolution.kRecoE sr) = false)
      ∧ ((sr.Ev_reco = Dbl.nan → Exercise3Solution.kRecoE sr = Dbl.fin 0)
        ∧ (sr.Ev_reco ≠ Dbl.nan → Exercise3Solution.kRecoE sr = sr.Ev_reco)
        ∧ Exercise3Solution.kRecoE sr ≠ Dbl.nan
        ∧ Dbl.isnan (Exercise3Solution.kRecoE sr) = false) := by
  unfold firstAnalysisSolution.kRecoE Exercise3Solution.kRecoE
  rw [Dbl.zero_eq_fin]
  cases hv : sr.Ev_reco <;> simp [Dbl.isnan]

/-- Witness for C13 at the sample record whose `Ev_reco` is NaN: both variables
return 0 there. -/
theorem kRecoE_never_nan_witness :
    sampleNoRecoE.Ev_reco = Dbl.nan
      ∧ firstAnalysisSolution.kRecoE sampleNoRecoE = Dbl.fin 0
      ∧ Exercise3Solution.kRecoE sampleNoRecoE = Dbl.fin 0 :=
  ⟨rfl, (kRecoE_never_nan sampleNoRecoE).1.1 rfl, (kRecoE_never_nan sampleNoRecoE).2.1 rfl⟩

/-- C14: `kRecoQEFormulaEnergy` (`firstAnalysisSolution.C`) and `kQEFormulaEnergy`
(`Exercise3Solution.C`) return 0 when `Elep_reco` is zero and, on every record
whose `Elep_reco` is not zero, exactly
`QEFormula(Elep_reco, cos(theta_reco))`. -/
theorem kRecoQEFormulaEnergy_spec (sr : SRProxy) :
    ((sr.Elep_reco = Dbl.fin 0 → firstAnalysisSolution.kRecoQEFormulaEnergy sr = Dbl.fin 0)
        ∧ (sr.Elep_reco ≠ Dbl.fin 0 → firstAnalysisSolution.kRecoQEFormulaEnergy sr
            = QEFormula sr.Elep_reco (Dbl.cos sr.theta_reco)))
      ∧ ((sr.Elep_reco = Dbl.fin 0 → Exercise3Solution.kQEFormulaEnergy sr = Dbl.fin 0)
        ∧ (sr.Elep_reco ≠ Dbl.fin 0 → Exercise3Solution.kQEFormulaEnergy sr
            = QEFormula sr.Elep_reco (Dbl.cos sr.theta_reco))) := by
  have key : ∀ v : Dbl,
      (sr.Elep_reco = Dbl.fin 0 → (if Dbl.eq sr.Elep_reco 0 then (0 : Dbl) else v) = Dbl.fin 0)
        ∧ (sr.Elep_reco ≠ Dbl.fin 0 → (if Dbl.eq sr.Elep_reco 0 then (0 : Dbl) else v) = v) := by
    intro v
    constructor
    · intro h
      rw [if_pos ((Dbl.eq_zero_iff _).mpr h)]
      exact Dbl.zero_eq_fin
    · intro h
      rw [if_neg]
      intro he
      exact h ((Dbl.eq_zero_iff _).mp he)
  exact ⟨key _, key _⟩

/-- Witness for C14: 0 on the sample record with no reconstructed muon, the
formula on the sample mu- record (`Elep_reco = 1.0`). -/
theorem kRecoQEFormulaEnergy_spec_witness :
    firstAnalysisSolution.kRecoQEFormulaEnergy sampleNoMuon = Dbl.fin 0
      ∧ Exercise3Solution.kQEFormulaEnergy sampleNoMuon = Dbl.fin 0
      ∧ firstAnalysisSolution.kRecoQEFormulaEnergy sampleMuMinus
          = QEFormula (Dbl.fin 1.0) (Dbl.cos (Dbl.fin 0.3))
      ∧ Exercise3Solution.kQEFormulaEnergy sampleMuMinus
          = QEFormula (Dbl.fin 1.0) (Dbl.cos (Dbl.fin 0.3)) :=
  have hne : sampleMuMinus.Elep_reco ≠ Dbl.fin 0 := by
    show Dbl.fin 1.0 ≠ Dbl.fin 0
    intro h
    have h1 : (1.0 : ℝ) = 0 := Dbl.fin.inj h
    norm_num at h1
  ⟨(kRecoQEFormulaEnergy_spec sampleNoMuon).1.1 rfl,
    (kRecoQEFormulaEnergy_spec sampleNoMuon).2.1 rfl,
    (kRecoQEFormulaEnergy_spec sampleMuMinus).1.2 hne,
    (kRecoQEFormulaEnergy_spec sampleMuMinus).2.2 hne⟩

/-- C15, the code at the failing input: on the sample mu- record whose
`Elep_reco` is NaN (and whose `Ev_reco` is 1.2), the cut `kHasQEFinalState` of
`Exercise3.C` passes: `NaN <= 0.` is false, so the third early return is not
taken. -/
theorem Exercise3_kHasQEFinalState_passes_nan :
    Dbl.isnan sampleRecoNaN.Elep_reco = true
      ∧ Dbl.le sampleRecoNaN.Elep_reco 0 = false
      ∧ Exercise3.kHasQEFinalState sampleRecoNaN = true := by
  have hE : Dbl.le (Dbl.fin 1.2) 0 = false := by
    rw [Dbl.zero_eq_fin]
    simp only [Dbl.le, decide_eq_false_iff_not, not_le]
    norm_num
  have hN : Dbl.le Dbl.nan 0 = false := rfl
  refine ⟨rfl, hN, ?_⟩
  show (if Dbl.isnan (Dbl.fin 1.2) then false
    else if Dbl.le (Dbl.fin 1.2) 0 then false
    else if Dbl.le Dbl.nan 0 then false
    else _) = true
  rw [hE, hN]
  decide

/-- Adding the proton mass and taking off the energy of the bound neutron is
adding `0.027`, whatever the two doubles are (special values included). -/
theorem Dbl.conserved_eq (a b : Dbl) :
    a + (b + Dbl.fin M_P) - (Dbl.fin M_N - Dbl.fin E_B) = a + b + Dbl.fin 0.027
      ∧ a + b + Dbl.fin M_P - (Dbl.fin M_N - Dbl.fin E_B) = a + b + Dbl.fin 0.027 := by
  have e1 : ∀ x y : ℝ, x + (y + M_P) + -(M_N - E_B) = x + y + 0.027 := by
    intro x y; unfold M_P M_N E_B; ring
  have e2 : ∀ x y : ℝ, x + y + M_P + -(M_N - E_B) = x + y + 0.027 := by
    intro x y; unfold M_P M_N E_B; ring
  rw [Dbl.fin_sub_fin]
  show Dbl.add (Dbl.add a (Dbl.add b (Dbl.fin M_P))) (Dbl.neg (Dbl.fin (M_N - E_B)))
        = Dbl.add (Dbl.add a b) (Dbl.fin 0.027)
      ∧ Dbl.add (Dbl.add (Dbl.add a b) (Dbl.fin M_P)) (Dbl.neg (Dbl.fin (M_N - E_B)))
        = Dbl.add (Dbl.add a b) (Dbl.fin 0.027)
  cases a with
  | fin x =>
    cases b with
    | fin y =>
      simp only [Dbl.add, Dbl.neg]
      exact ⟨congrArg Dbl.fin (e1 x y), congrArg Dbl.fin (e2 x y)⟩
    | inf t => simp [Dbl.add, Dbl.neg]
    | nan => simp [Dbl.add, Dbl.neg]
  | inf s =>
    cases b with
    | fin y => simp [Dbl.add, Dbl.neg]
    | inf t => by_cases hst : s = t <;> simp [Dbl.add, Dbl.neg, hst]
    | nan => simp [Dbl.add, Dbl.neg]
  | nan =>
    cases b <;> simp [Dbl.add, Dbl.neg]

/-- C16, refuted as stated: in binary64, on `LepE = eP = 0` (and on
`Elep_reco = eRecoP = 0`) the variables return `7782220156096224 * 2^-58`
(`0.027000000000000024`), which is neither the double `0 + 0 + 0.027`
(`7782220156096217 * 2^-58`) nor the real number `0.027`. -/
theorem kConservedE_not_plus_027_binary64 :
    Binary64.Exercise3Solution.kConservedETrue 0 0 = F64.fin false 7782220156096224 (-58)
      ∧ Binary64.Exercise3Solution.kConservedEReco 0 0
        = F64.fin false 7782220156096224 (-58)
      ∧ (0 + 0 + F64.lit 27 1000 : F64) = F64.fin false 7782220156096217 (-58)
      ∧ Binary64.Exercise3Solution.kConservedETrue 0 0 ≠ 0 + 0 + F64.lit 27 1000
      ∧ F64.toReal (Binary64.Exercise3Solution.kConservedETrue 0 0) ≠ 0 + 0 + 0.027 := by
  have hv : Binary64.Exercise3Solution.kConservedETrue 0 0
      = F64.fin false 7782220156096224 (-58) := by decide
  refine ⟨hv, by decide, by decide, by decide, ?_⟩
  rw [hv]
  unfold F64.toReal
  norm_num

/-- C16, amended: `kConservedETrue` and `kConservedEReco` are the final-state
energy (muon energy plus proton kinetic energy plus proton mass) minus the
energy `M_N - E_B` of the bound neutron: the double
`Emu + (protonKE + M_P) - (M_N - E_B)`, one function applied to `(LepE, eP)` and
to `(Elep_reco, eRecoP)`; over the exact reals (no rounding, no overflow) this
is the muon energy plus the proton kinetic energy plus `0.027`. -/
theorem kConservedE_spec (sr : SRProxy) (Emu protonKE : ℝ) :
    (∀ x y : F64, Binary64.Exercise3Solution.kConservedETrue x y
        = x + (y + Binary64.M_P) - (Binary64.M_N - Binary64.E_B))
      ∧ Binary64.Exercise3Solution.kConservedEReco
        = Binary64.Exercise3Solution.kConservedETrue
      ∧ Exercise3Solution.kConservedETrue sr
        = sr.LepE + sr.eP + Dbl.fin M_P - (Dbl.fin M_N - Dbl.fin E_B)
      ∧ Exercise3Solution.kConservedETrue sr = sr.LepE + sr.eP + Dbl.fin 0.027
      ∧ Exercise3Solution.kConservedEReco sr
        = sr.Elep_reco + sr.eRecoP + Dbl.fin M_P - (Dbl.fin M_N - Dbl.fin E_B)
      ∧ Exercise3Solution.kConservedEReco sr = sr.Elep_reco + sr.eRecoP + Dbl.fin 0.027
      ∧ Exercise3Solution.kConservedEReco sr
        = Exercise3Solution.kConservedETrue
            { sr with LepE := sr.Elep_reco, eP := sr.eRecoP }
      ∧ M_P - (M_N - E_B) = 0.027
      ∧ Exercise3Solution.kConservedETrue
            { sr with LepE := Dbl.fin Emu, eP := Dbl.fin protonKE }
          = Dbl.fin (Emu + protonKE + 0.027)
      ∧ Exercise3Solution.kConservedEReco
            { sr with Elep_reco := Dbl.fin Emu, eRecoP := Dbl.fin protonKE }
          = Dbl.fin (Emu + protonKE + 0.027) := by
  have hT : ∀ r : SRProxy, Exercise3Solution.kConservedETrue r
      = r.LepE + r.eP + Dbl.fin 0.027 := fun r => (Dbl.conserved_eq r.LepE r.eP).1
  have hR : ∀ r : SRProxy, Exercise3Solution.kConservedEReco r
      = r.Elep_reco + r.eRecoP + Dbl.fin 0.027 :=
    fun r => (Dbl.conserved_eq r.Elep_reco r.eRecoP).1
  refine ⟨fun x y => rfl, rfl, ?_, hT sr, ?_, hR sr, rfl, ?_, ?_, ?_⟩
  · rw [hT, (Dbl.conserved_eq sr.LepE sr.eP).2]
  · rw [hR, (Dbl.conserved_eq sr.Elep_reco sr.eRecoP).2]
  · unfold M_P M_N E_B; norm_num
  · rw [hT]; rfl
  · rw [hR]; rfl

/-! ## Scaling of the y axis -/

/-- On finite values `TMath::Max` is the maximum. -/
theorem TMath.Max_fin (a b : ℝ) : TMath.Max (Dbl.fin a) (Dbl.fin b) = Dbl.fin (max a b) := by
  unfold TMath.Max Dbl.ge
  by_cases h : b ≤ a
  · simp [Dbl.le, h]
  · simp [Dbl.le, h, max_eq_right (le_of_lt (not_le.mp h))]

/-- On finite values `std::max` is the maximum. -/
theorem std.max_of_fin (a b : ℝ) : std.max (Dbl.fin a) (Dbl.fin b) = Dbl.fin (Max.max a b) := by
  unfold std.max
  by_cases h : a < b
  · simp [Dbl.lt, h, max_eq_right (le_of_lt h)]
  · simp [Dbl.lt, h, max_eq_left (not_lt.mp h)]

/-- One of five numbers is their maximum. -/
theorem max5_mem (a b c d e : ℝ) :
    Max.max (Max.max (Max.max (Max.max a b) c) d) e = a
      ∨ Max.max (Max.max (Max.max (Max.max a b) c) d) e = b
      ∨ Max.max (Max.max (Max.max (Max.max a b) c) d) e = c
      ∨ Max.max (Max.max (Max.max (Max.max a b) c) d) e = d
      ∨ Max.max (Max.max (Max.max (Max.max a b) c) d) e = e := by
  rcases max_choice (Max.max (Max.max (Max.max a b) c) d) e with h4 | h4
  · rcases max_choice (Max.max (Max.max a b) c) d with h3 | h3
    · rcases max_choice (Max.max a b) c with h2 | h2
      · rcases max_choice a b with h1 | h1
        · left; rw [h4, h3, h2, h1]
        · right; left; rw [h4, h3, h2, h1]
      · right; right; left; rw [h4, h3, h2]
    · right; right; right; left; rw [h4, h3]
  · right; right; right; right; exact h4

/-- C17: the height computed for the y axis is one of the histogram maxima and
is at least every one of them (five histograms in `Exercise3Solution.C`, three
in `Exercise2Solution.C`); the upper limit handed to the axis is `1.1` times
it, so for non-negative maxima it is at least every maximum. -/
theorem height_spec (a b c d e : ℝ) :
    (∃ h : ℝ,
        Exercise3Solution.height (Dbl.fin a) (Dbl.fin b) (Dbl.fin c) (Dbl.fin d) (Dbl.fin e)
          = Dbl.fin h
        ∧ (h = a ∨ h = b ∨ h = c ∨ h = d ∨ h = e)
        ∧ (a ≤ h ∧ b ≤ h ∧ c ≤ h ∧ d ≤ h ∧ e ≤ h)
        ∧ Exercise3Solution.yAxisTop (Dbl.fin a) (Dbl.fin b) (Dbl.fin c) (Dbl.fin d)
            (Dbl.fin e) = Dbl.fin (h * 1.1)
        ∧ (0 ≤ a ∧ 0 ≤ b ∧ 0 ≤ c ∧ 0 ≤ d ∧ 0 ≤ e →
            a ≤ h * 1.1 ∧ b ≤ h * 1.1 ∧ c ≤ h * 1.1 ∧ d ≤ h * 1.1 ∧ e ≤ h * 1.1))
      ∧ (∃ h : ℝ,
        Exercise2Solution.height (Dbl.fin a) (Dbl.fin b) (Dbl.fin c) = Dbl.fin h
        ∧ (h = a ∨ h = b ∨ h = c)
        ∧ (a ≤ h ∧ b ≤ h ∧ c ≤ h)
        ∧ Exercise2Solution.yAxisTop (Dbl.fin a) (Dbl.fin b) (Dbl.fin c) = Dbl.fin (h * 1.1)
        ∧ (0 ≤ a ∧ 0 ≤ b ∧ 0 ≤ c → a ≤ h * 1.1 ∧ b ≤ h * 1.1 ∧ c ≤ h * 1.1)) := by
  constructor
  · have hh : Exercise3Solution.height (Dbl.fin a) (Dbl.fin b) (Dbl.fin c) (Dbl.fin d)
        (Dbl.fin e) = Dbl.fin (Max.max (Max.max (Max.max (Max.max a b) c) d) e) := by
      simp only [Exercise3Solution.height, TMath.Max_fin, std.max_of_fin]
    have ha : a ≤ Max.max (Max.max (Max.max (Max.max a b) c) d) e :=
      le_max_of_le_left (le_max_of_le_left (le_max_of_le_left (le_max_left a b)))
    have hb : b ≤ Max.max (Max.max (Max.max (Max.max a b) c) d) e :=
      le_max_of_le_left (le_max_of_le_left (le_max_of_le_left (le_max_right a b)))
    have hc : c ≤ Max.max (Max.max (Max.max (Max.max a b) c) d) e :=
      le_max_of_le_left (le_max_of_le_left (le_max_right _ c))
    have hd : d ≤ Max.max (Max.max (Max.max (Max.max a b) c) d) e :=
      le_max_of_le_left (le_max_right _ d)
    have he : e ≤ Max.max (Max.max (Max.max (Max.max a b) c) d) e := le_max_right _ e
    refine ⟨_, hh, max5_mem a b c d e, ⟨ha, hb, hc, hd, he⟩, ?_, ?_⟩
    · simp only [Exercise3Solution.yAxisTop, hh, Dbl.fin_mul_fin]
    · rintro ⟨pa, -, -, -, -⟩
      generalize Max.max (Max.max (Max.max (Max.max a b) c) d) e = h at ha hb hc hd he
      have h0 : 0 ≤ h := le_trans pa ha
      refine ⟨?_, ?_, ?_, ?_, ?_⟩ <;> linarith
  · have hh : Exercise2Solution.height (Dbl.fin a) (Dbl.fin b) (Dbl.fin c)
        = Dbl.fin (Max.max a (Max.max b c)) := by
      simp only [Exercise2Solution.height, TMath.Max_fin]
    have ha : a ≤ Max.max a (Max.max b c) := le_max_left _ _
    have hb : b ≤ Max.max a (Max.max b c) := le_max_of_le_right (le_max_left b c)
    have hc : c ≤ Max.max a (Max.max b c) := le_max_of_le_right (le_max_right b c)
    have hm : Max.max a (Max.max b c) = a ∨ Max.max a (Max.max b c) = b
        ∨ Max.max a (Max.max b c) = c := by
      rcases max_choice a (Max.max b c) with h1 | h1
      · left; exact h1
      · rcases max_choice b c with h2 | h2
        · right; left; rw [h1, h2]
        · right; right; rw [h1, h2]
    refine ⟨_, hh, hm, ⟨ha, hb, hc⟩, ?_, ?_⟩
    · simp only [Exercise2Solution.yAxisTop, hh, Dbl.fin_mul_fin]
    · rintro ⟨pa, -, -⟩
      generalize Max.max a (Max.max b c) = h at ha hb hc
      have h0 : 0 ≤ h := le_trans pa ha
      refine ⟨?_, ?_, ?_⟩ <;> linarith

/-- Witness for C17 at the non-negative maxima 3, 7, 5, 2, 6: the axis limit
`1.1 * height` is at least each of them. -/
theorem height_spec_witness :
    ((0 : ℝ) ≤ 3 ∧ (0 : ℝ) ≤ 7 ∧ (0 : ℝ) ≤ 5 ∧ (0 : ℝ) ≤ 2 ∧ (0 : ℝ) ≤ 6)
      ∧ ∃ h : ℝ,
        Exercise3Solution.height (Dbl.fin 3) (Dbl.fin 7) (Dbl.fin 5) (Dbl.fin 2) (Dbl.fin 6)
          = Dbl.fin h
        ∧ Exercise3Solution.yAxisTop (Dbl.fin 3) (Dbl.fin 7) (Dbl.fin 5) (Dbl.fin 2)
            (Dbl.fin 6) = Dbl.fin (h * 1.1)
        ∧ (3 ≤ h * 1.1 ∧ 7 ≤ h * 1.1 ∧ 5 ≤ h * 1.1 ∧ 2 ≤ h * 1.1 ∧ 6 ≤ h * 1.1) := by
  have hpos : (0 : ℝ) ≤ 3 ∧ (0 : ℝ) ≤ 7 ∧ (0 : ℝ) ≤ 5 ∧ (0 : ℝ) ≤ 2 ∧ (0 : ℝ) ≤ 6 := by
    norm_num
  obtain ⟨h, e3, -, -, et, imp⟩ := (height_spec 3 7 5 2 6).1
  exact ⟨hpos, h, e3, et, imp hpos⟩

/-! ## The quasi-elastic formula: dependence on the angle -/

/-- At or above the muon mass the numerator is strictly positive. -/
theorem num_pos (Emu : ℝ) (hE : M_MU ≤ Emu) :
    0 < M_P ^ 2 - (M_N - E_B) ^ 2 - M_MU ^ 2 + 2 * (M_N - E_B) * Emu := by
  have hc : M_P ^ 2 - (M_N - E_B) ^ 2 - M_MU ^ 2 + 2 * (M_N - E_B) * Emu
      = 0.038687 + 1.822 * Emu := by
    unfold M_P M_N E_B M_MU; ring
  have hm : (0 : ℝ) < M_MU := by unfold M_MU; norm_num
  rw [hc]
  linarith

/-- C18, refuted as stated: in binary64, at the lepton energy `0.107` (above the
muon mass) the cosines `0.5` and `0.5000000000000001` (the next double), at
both of which the denominator is strictly positive, give the same result
`5187866754783215 * 2^-55` (`0.1439922279961929`): no strict decrease. -/
theorem QEFormula_not_strict_binary64 :
    Binary64.QEFormula (F64.lit 107 1000) (F64.lit 5 10)
        = F64.fin false 5187866754783215 (-55)
      ∧ Binary64.QEFormula (F64.lit 107 1000) (F64.fin false 4503599627370497 (-53))
        = F64.fin false 5187866754783215 (-55)
      ∧ F64.toReal (F64.lit 107 1000) = 7710162562058289 / 2 ^ 56
      ∧ F64.toReal (F64.lit 5 10) = 1 / 2
      ∧ F64.toReal (F64.fin false 4503599627370497 (-53)) = 1 / 2 + 1 / 2 ^ 53
      ∧ M_MU < 7710162562058289 / 2 ^ 56
      ∧ (1 / 2 : ℝ) < 1 / 2 + 1 / 2 ^ 53
      ∧ 0 < M_N - E_B - 7710162562058289 / 2 ^ 56
          + Real.sqrt ((7710162562058289 / 2 ^ 56) ^ 2 - M_MU ^ 2) * (1 / 2)
      ∧ 0 < M_N - E_B - 7710162562058289 / 2 ^ 56
          + Real.sqrt ((7710162562058289 / 2 ^ 56) ^ 2 - M_MU ^ 2)
            * (1 / 2 + 1 / 2 ^ 53) := by
  have ha : F64.lit 107 1000 = F64.fin false 7710162562058289 (-56) := by decide
  have hc : F64.lit 5 10 = F64.fin false 4503599627370496 (-53) := by decide
  have hs := Real.sqrt_nonneg ((7710162562058289 / 2 ^ 56 : ℝ) ^ 2 - M_MU ^ 2)
  have hA : (0 : ℝ) < M_N - E_B - 7710162562058289 / 2 ^ 56 := by
    unfold M_N E_B; norm_num
  refine ⟨by decide, by decide, ?_, ?_, ?_, by unfold M_MU; norm_num, by norm_num, ?_, ?_⟩
  · rw [ha]; unfold F64.toReal; norm_num
  · rw [hc]; unfold F64.toReal; norm_num
  · unfold F64.toReal; norm_num
  · have := mul_nonneg hs (by norm_num : (0 : ℝ) ≤ 1 / 2)
    linarith
  · have := mul_nonneg hs (by norm_num : (0 : ℝ) ≤ 1 / 2 + 1 / 2 ^ 53)
    linarith

/-- C18, amended: over the exact reals (the formula evaluated without the
rounding and the overflow of binary64), with the lepton energy held at or
above the muon mass, and at two cosines `cos1 <= cos2` where the denominator
is strictly positive, the result at `cos1` is at least the result at `cos2`;
it is strictly larger when the energy is above the muon mass and
`cos1 < cos2`. -/
theorem QEFormula_antitone_cos (Emu cos1 cos2 : ℝ) (hE : M_MU ≤ Emu) (h12 : cos1 ≤ cos2)
    (hd1 : 0 < M_N - E_B - Emu + Real.sqrt (Emu ^ 2 - M_MU ^ 2) * cos1)
    (hd2 : 0 < M_N - E_B - Emu + Real.sqrt (Emu ^ 2 - M_MU ^ 2) * cos2) :
    ∃ e1 e2 : ℝ, QEFormula (Dbl.fin Emu) (Dbl.fin cos1) = Dbl.fin e1
      ∧ QEFormula (Dbl.fin Emu) (Dbl.fin cos2) = Dbl.fin e2
      ∧ e2 ≤ e1
      ∧ (M_MU < Emu → cos1 < cos2 → e2 < e1) := by
  have hsq := sq_threshold Emu hE
  have hN := num_pos Emu hE
  have hD1 : 0 < 2 * (M_N - E_B - Emu + Real.sqrt (Emu ^ 2 - M_MU ^ 2) * cos1) := by linarith
  have hD2 : 0 < 2 * (M_N - E_B - Emu + Real.sqrt (Emu ^ 2 - M_MU ^ 2) * cos2) := by linarith
  have hp : 0 ≤ Real.sqrt (Emu ^ 2 - M_MU ^ 2) := Real.sqrt_nonneg _
  refine ⟨_, _, QEFormula_fin_value Emu cos1 hsq hD1.ne', QEFormula_fin_value Emu cos2 hsq hD2.ne',
    ?_, ?_⟩
  · apply div_le_div_of_nonneg_left hN.le hD1
    have := mul_le_mul_of_nonneg_left h12 hp
    linarith
  · intro hlt hc
    have hm : (0 : ℝ) ≤ M_MU := by unfold M_MU; norm_num
    have hpos : 0 < Real.sqrt (Emu ^ 2 - M_MU ^ 2) := by
      apply Real.sqrt_pos.mpr
      nlinarith
    apply div_lt_div_of_pos_left hN hD1
    have := mul_lt_mul_of_pos_left hc hpos
    linarith

/-- Witness for the amended C18 at `Emu = 1`, `cos1 = 0.5`, `cos2 = 1`. -/
theorem QEFormula_antitone_cos_witness :
    ∃ e1 e2 : ℝ, QEFormula (Dbl.fin 1) (Dbl.fin 0.5) = Dbl.fin e1
      ∧ QEFormula (Dbl.fin 1) (Dbl.fin 1) = Dbl.fin e2
      ∧ e2 < e1 := by
  have hE : M_MU < 1 := by unfold M_MU; norm_num
  have hp : (0.9 : ℝ) < Real.sqrt (1 ^ 2 - M_MU ^ 2) := by
    rw [Real.lt_sqrt (by norm_num)]; unfold M_MU; norm_num
  have hd1 : 0 < M_N - E_B - 1 + Real.sqrt (1 ^ 2 - M_MU ^ 2) * 0.5 := by
    unfold M_N E_B; linarith
  have hd2 : 0 < M_N - E_B - 1 + Real.sqrt (1 ^ 2 - M_MU ^ 2) * 1 := by
    unfold M_N E_B; linarith
  obtain ⟨e1, e2, h1, h2, -, hs⟩ :=
    QEFormula_antitone_cos 1 0.5 1 hE.le (by norm_num) hd1 hd2
  exact ⟨e1, e2, h1, h2, hs hE (by norm_num)⟩

/-- C19, refuted as stated: in binary64, at the lepton energy `1e200` (above the
muon mass, with the zero crossing `c*` in `[-1, 1)`) no cosine at all gives a
result above the bound `1`: `sqr(Emu)` overflows, `pmu` is `+inf`, and the
result is a zero or NaN at every double. -/
theorem QEFormula_bounded_binary64 :
    M_MU < F64.toReal (F64.lit (10 ^ 200) 1)
      ∧ -1 ≤ (F64.toReal (F64.lit (10 ^ 200) 1) - (M_N - E_B))
          / Real.sqrt (F64.toReal (F64.lit (10 ^ 200) 1) ^ 2 - M_MU ^ 2)
      ∧ (F64.toReal (F64.lit (10 ^ 200) 1) - (M_N - E_B))
          / Real.sqrt (F64.toReal (F64.lit (10 ^ 200) 1) ^ 2 - M_MU ^ 2) < 1
      ∧ ∀ cosmu : F64,
          F64.lt 1 (Binary64.QEFormula (F64.lit (10 ^ 200) 1) cosmu) = false := by
  have hA : M_N - E_B = 0.911 := by unfold M_N E_B; norm_num
  have hbig : F64.toReal (F64.lit (10 ^ 200) 1) - 0.911
      < Real.sqrt (F64.toReal (F64.lit (10 ^ 200) 1) ^ 2 - M_MU ^ 2) := by
    rw [F64.toReal_1e200.2, Real.lt_sqrt (by norm_num)]
    unfold M_MU
    norm_num
  have hnum : (0 : ℝ) ≤ F64.toReal (F64.lit (10 ^ 200) 1) - 0.911 := by
    rw [F64.toReal_1e200.2]; norm_num
  have hsp : 0 < Real.sqrt (F64.toReal (F64.lit (10 ^ 200) 1) ^ 2 - M_MU ^ 2) :=
    lt_of_le_of_lt hnum hbig
  refine ⟨?_, ?_, ?_, ?_⟩
  · rw [F64.toReal_1e200.2]; unfold M_MU; norm_num
  · rw [hA]
    have := div_nonneg hnum hsp.le
    linarith
  · rw [hA, div_lt_one hsp]
    exact hbig
  · intro c
    rw [F64.toReal_1e200.1]
    have hp : F64.sqrt (Binary64.sqr (F64.fin false 5883593420661338 612)
        - Binary64.sqr Binary64.M_MU) = F64.inf false := by decide
    have hn : Binary64.sqr Binary64.M_P - Binary64.sqr (Binary64.M_N - Binary64.E_B)
        - Binary64.sqr Binary64.M_MU
        + 2 * (Binary64.M_N - Binary64.E_B) * F64.fin false 5883593420661338 612
        = F64.fin false 5359953606222478 613 := by decide
    have hd : Binary64.M_N - Binary64.E_B - F64.fin false 5883593420661338 612
        = F64.fin true 5883593420661338 612 := by decide
    have h2 : (2 : F64) = F64.fin false 4503599627370496 (-51) := by decide
    have h1 : (1 : F64) = F64.fin false 4503599627370496 (-52) := by decide
    show F64.lt 1 ((Binary64.sqr Binary64.M_P - Binary64.sqr (Binary64.M_N - Binary64.E_B)
        - Binary64.sqr Binary64.M_MU
        + 2 * (Binary64.M_N - Binary64.E_B) * F64.fin false 5883593420661338 612)
      / (2 * (Binary64.M_N - Binary64.E_B - F64.fin false 5883593420661338 612
        + F64.sqrt (Binary64.sqr (F64.fin false 5883593420661338 612)
            - Binary64.sqr Binary64.M_MU) * c))) = false
    rw [hp, hn, hd, h2, h1]
    show F64.lt _ (F64.div _ (F64.mul _ (F64.add _ (F64.mul (F64.inf false) c)))) = false
    cases c with
    | nan => rfl
    | inf s => cases s <;> rfl
    | fin s m e =>
      by_cases hm : m = 0
      · subst hm; cases s <;> rfl
      · cases s <;> simp [F64.mul, hm, F64.add, F64.div] <;> decide

/-- C19, amended: over the exact reals (the formula evaluated without the
rounding and the overflow of binary64), when the lepton energy is above the
muon mass and the zero crossing `c* = (Emu - (M_N - E_B)) / pmu` of the
denominator lies in `[-1, 1)`, the result is unbounded near it: every bound
`B` is exceeded at some cosine of `(c*, 1]`. -/
theorem QEFormula_unbounded (Emu B : ℝ) (hE : M_MU < Emu)
    (_hlo : -1 ≤ (Emu - (M_N - E_B)) / Real.sqrt (Emu ^ 2 - M_MU ^ 2))
    (hhi : (Emu - (M_N - E_B)) / Real.sqrt (Emu ^ 2 - M_MU ^ 2) < 1) :
    ∃ cosmu v : ℝ, (Emu - (M_N - E_B)) / Real.sqrt (Emu ^ 2 - M_MU ^ 2) < cosmu
      ∧ cosmu ≤ 1
      ∧ QEFormula (Dbl.fin Emu) (Dbl.fin cosmu) = Dbl.fin v
      ∧ B < v := by
  have hsq := sq_threshold Emu hE.le
  have hN := num_pos Emu hE.le
  have hm : (0 : ℝ) ≤ M_MU := by unfold M_MU; norm_num
  have hp : 0 < Real.sqrt (Emu ^ 2 - M_MU ^ 2) := by
    apply Real.sqrt_pos.mpr
    nlinarith
  have hval : ∀ c : ℝ, 2 * (M_N - E_B - Emu + Real.sqrt (Emu ^ 2 - M_MU ^ 2) * c) ≠ 0 →
      QEFormula (Dbl.fin Emu) (Dbl.fin c)
        = Dbl.fin ((M_P ^ 2 - (M_N - E_B) ^ 2 - M_MU ^ 2 + 2 * (M_N - E_B) * Emu)
          / (2 * (M_N - E_B - Emu + Real.sqrt (Emu ^ 2 - M_MU ^ 2) * c))) :=
    fun c hc => QEFormula_fin_value Emu c hsq hc
  generalize Real.sqrt (Emu ^ 2 - M_MU ^ 2) = p at hp hhi hval ⊢
  generalize M_P ^ 2 - (M_N - E_B) ^ 2 - M_MU ^ 2 + 2 * (M_N - E_B) * Emu = N at hN hval ⊢
  have hK : 0 < Max.max B 0 + 1 := by
    have := le_max_right B 0
    linarith
  have hBK : B < Max.max B 0 + 1 := by
    have := le_max_left B 0
    linarith
  generalize Max.max B 0 + 1 = K at hK hBK
  have hcs : p * ((Emu - (M_N - E_B)) / p) = Emu - (M_N - E_B) := mul_div_cancel₀ _ hp.ne'
  generalize (Emu - (M_N - E_B)) / p = cs at hhi hcs ⊢
  have hq : 0 < N / (2 * p * K) := by positivity
  have hδ : 0 < min (1 - cs) (N / (2 * p * K)) := lt_min (by linarith) hq
  have hδ1 : min (1 - cs) (N / (2 * p * K)) ≤ 1 - cs := min_le_left _ _
  have hδ2 : min (1 - cs) (N / (2 * p * K)) ≤ N / (2 * p * K) := min_le_right _ _
  generalize min (1 - cs) (N / (2 * p * K)) = δ at hδ hδ1 hδ2
  have hD : 2 * (M_N - E_B - Emu + p * (cs + δ)) = 2 * p * δ := by
    linear_combination 2 * hcs
  have hDpos : 0 < 2 * (M_N - E_B - Emu + p * (cs + δ)) := by
    rw [hD]; positivity
  refine ⟨cs + δ, _, by linarith, by linarith, hval (cs + δ) hDpos.ne', ?_⟩
  apply lt_of_lt_of_le hBK
  rw [le_div_iff₀ hDpos, hD]
  have h2pK : 0 < 2 * p * K := by positivity
  have := (le_div_iff₀ h2pK).mp hδ2
  linarith

/-- Witness for the amended C19 at `Emu = 1` (zero crossing near `0.0895`) and the bound
`B = 100`. -/
theorem QEFormula_unbounded_witness :
    ∃ cosmu v : ℝ, (1 - (M_N - E_B)) / Real.sqrt (1 ^ 2 - M_MU ^ 2) < cosmu
      ∧ cosmu ≤ 1
      ∧ QEFormula (Dbl.fin 1) (Dbl.fin cosmu) = Dbl.fin v
      ∧ 100 < v := by
  have hE : M_MU < 1 := by unfold M_MU; norm_num
  have hp : (0.9 : ℝ) < Real.sqrt (1 ^ 2 - M_MU ^ 2) := by
    rw [Real.lt_sqrt (by norm_num)]; unfold M_MU; norm_num
  have hp0 : 0 < Real.sqrt (1 ^ 2 - M_MU ^ 2) := lt_trans (by norm_num) hp
  have hlo : -1 ≤ (1 - (M_N - E_B)) / Real.sqrt (1 ^ 2 - M_MU ^ 2) := by
    have : 0 ≤ (1 - (M_N - E_B)) / Real.sqrt (1 ^ 2 - M_MU ^ 2) := by
      apply div_nonneg _ hp0.le
      unfold M_N E_B; norm_num
    linarith
  have hhi : (1 - (M_N - E_B)) / Real.sqrt (1 ^ 2 - M_MU ^ 2) < 1 := by
    rw [div_lt_one hp0]
    unfold M_N E_B
    linarith
  exact QEFormula_unbounded 1 100 hE hlo hhi

/-! ## What the callers of the formula check -/

/-- C20, refuted as stated: on the sample record with `Elep_reco = 0.05`, below
the muon mass, the test `Emu == 0` is false, so both reconstructed variables
call `QEFormula(0.05, cos(0.3))` with the negative radicand
`0.05^2 - M_MU^2`, and the result is NaN. -/
theorem kRecoQEFormulaEnergy_subthreshold :
    sampleLowReco.Elep_reco = Dbl.fin 0.05
      ∧ Dbl.eq sampleLowReco.Elep_reco 0 = false
      ∧ (0.05 : ℝ) < M_MU
      ∧ (0.05 : ℝ) ^ 2 - M_MU ^ 2 < 0
      ∧ firstAnalysisSolution.kRecoQEFormulaEnergy sampleLowReco
          = QEFormula (Dbl.fin 0.05) (Dbl.cos (Dbl.fin 0.3))
      ∧ Exercise3Solution.kQEFormulaEnergy sampleLowReco
          = QEFormula (Dbl.fin 0.05) (Dbl.cos (Dbl.fin 0.3))
      ∧ QEFormula (Dbl.fin 0.05) (Dbl.cos (Dbl.fin 0.3)) = Dbl.nan := by
  have hcall : Dbl.eq (Dbl.fin 0.05) 0 = false := by
    rw [Dbl.zero_eq_fin]
    simp only [Dbl.eq, decide_eq_false_iff_not]
    norm_num
  have hneg : (0.05 : ℝ) ^ 2 - M_MU ^ 2 < 0 := by unfold M_MU; norm_num
  refine ⟨rfl, hcall, by unfold M_MU; norm_num, hneg, ?_, ?_, ?_⟩
  · show (if Dbl.eq (Dbl.fin 0.05) 0 then (0 : Dbl) else _) = _
    rw [hcall]
    rfl
  · show (if Dbl.eq (Dbl.fin 0.05) 0 then (0 : Dbl) else _) = _
    rw [hcall]
    rfl
  · exact QEFormula_nan 0.05 (Real.cos 0.3) (by linarith)

/-- C20, amended: the callers test the reconstructed lepton energy against zero
only.  On every record that reaches the `QEFormula` call (`Emu == 0` false) the
energy passed is not the zero, the variable is
`QEFormula(Elep_reco, cos(theta_reco))`, and for a finite energy the radicand
`Elep_reco^2 - M_MU^2` is non-negative exactly when `|Elep_reco| >= M_MU`,
which no caller tests. -/
theorem kRecoQEFormulaEnergy_guard (sr : SRProxy) (hcall : Dbl.eq sr.Elep_reco 0 = false) :
    sr.Elep_reco ≠ Dbl.fin 0
      ∧ firstAnalysisSolution.kRecoQEFormulaEnergy sr
          = QEFormula sr.Elep_reco (Dbl.cos sr.theta_reco)
      ∧ Exercise3Solution.kQEFormulaEnergy sr
          = QEFormula sr.Elep_reco (Dbl.cos sr.theta_reco)
      ∧ ∀ x : ℝ, sr.Elep_reco = Dbl.fin x →
          x ≠ 0 ∧ (0 ≤ x ^ 2 - M_MU ^ 2 ↔ M_MU ≤ |x|) := by
  have hne : sr.Elep_reco ≠ Dbl.fin 0 := by
    intro h
    have := (Dbl.eq_zero_iff sr.Elep_reco).mpr h
    rw [hcall] at this
    exact Bool.false_ne_true this
  have hm : (0 : ℝ) ≤ M_MU := by unfold M_MU; norm_num
  refine ⟨hne, ?_, ?_, ?_⟩
  · show (if Dbl.eq sr.Elep_reco 0 then (0 : Dbl) else _) = _
    rw [hcall]
    rfl
  · show (if Dbl.eq sr.Elep_reco 0 then (0 : Dbl) else _) = _
    rw [hcall]
    rfl
  · intro x hx
    refine ⟨fun h0 => hne (by rw [hx, h0]), ?_⟩
    rw [sub_nonneg, sq_le_sq, abs_of_nonneg hm]

/-- Witness for the amended C20 at the sample mu- record (`Elep_reco = 1.0`). -/
theorem kRecoQEFormulaEnergy_guard_witness :
    Dbl.eq sampleMuMinus.Elep_reco 0 = false
      ∧ sampleMuMinus.Elep_reco ≠ Dbl.fin 0
      ∧ firstAnalysisSolution.kRecoQEFormulaEnergy sampleMuMinus
          = QEFormula sampleMuMinus.Elep_reco (Dbl.cos sampleMuMinus.theta_reco)
      ∧ Exercise3Solution.kQEFormulaEnergy sampleMuMinus
          = QEFormula sampleMuMinus.Elep_reco (Dbl.cos sampleMuMinus.theta_reco) := by
  have hcall : Dbl.eq sampleMuMinus.Elep_reco 0 = false := by
    show Dbl.eq (Dbl.fin 1.0) 0 = false
    rw [Dbl.zero_eq_fin]
    simp only [Dbl.eq, decide_eq_false_iff_not]
    norm_num
  obtain ⟨h1, h2, h3, -⟩ := kRecoQEFormulaEnergy_guard sampleMuMinus hcall
  exact ⟨hcall, h1, h2, h3⟩

/-! ## The quasi-elastic formula against energy conservation -/

/-- C21, refuted as stated: in binary64 `QEFormula(1e7, 1)` is
`5368709129555392 * 2^-29` (`10000000.017798305`), below `1e7 + 0.027` and below
what `kConservedETrue` returns on `LepE = 1e7`, `eP = 0`
(`10000000.026999999`), although the energy is above the muon mass, the cosine
is 1 and the denominator is strictly positive. -/
theorem QEFormula_below_conserved_binary64 :
    Binary64.QEFormula 10000000 1 = F64.fin false 5368709129555392 (-29)
      ∧ F64.toReal (10000000 : F64) = 10000000
      ∧ F64.toReal (1 : F64) = 1
      ∧ M_MU ≤ 10000000
      ∧ 0 < M_N - E_B - 10000000 + Real.sqrt (10000000 ^ 2 - M_MU ^ 2) * 1
      ∧ F64.toReal (Binary64.QEFormula 10000000 1) < 10000000 + M_P - (M_N - E_B)
      ∧ Binary64.Exercise3Solution.kConservedETrue 10000000 0
          = F64.fin false 5368709134495514 (-29)
      ∧ F64.lt (Binary64.QEFormula 10000000 1)
          (Binary64.Exercise3Solution.kConservedETrue 10000000 0) = true := by
  have hv : Binary64.QEFormula 10000000 1 = F64.fin false 5368709129555392 (-29) := by
    decide
  have hE : (10000000 : F64) = F64.fin false 5368709120000000 (-29) := by decide
  refine ⟨hv, ?_, F64.toReal_one_zero.1, by unfold M_MU; norm_num, ?_, ?_, by decide,
    by decide⟩
  · rw [hE]; unfold F64.toReal; norm_num
  · have : (10000000 : ℝ) - 0.911 < Real.sqrt (10000000 ^ 2 - M_MU ^ 2) := by
      rw [Real.lt_sqrt (by norm_num)]; unfold M_MU; norm_num
    unfold M_N E_B
    linarith
  · rw [hv]; unfold F64.toReal M_P M_N E_B; norm_num

/-- C21, amended: over the exact reals (the formula evaluated without the
rounding and the overflow of binary64), for every lepton energy at or above
the muon mass and every cosine in `[-1, 1]` at which the denominator is
strictly positive, the result is finite and at least
`Emu + M_P - (M_N - E_B) = Emu + 0.027`, which is `kConservedETrue` on a record
with that lepton energy and zero proton kinetic energy. -/
theorem QEFormula_ge_conserved (Emu cosmu : ℝ) (hE : M_MU ≤ Emu) (_hlo : -1 ≤ cosmu)
    (hhi : cosmu ≤ 1)
    (hden : 0 < M_N - E_B - Emu + Real.sqrt (Emu ^ 2 - M_MU ^ 2) * cosmu) :
    ∃ Enu : ℝ, QEFormula (Dbl.fin Emu) (Dbl.fin cosmu) = Dbl.fin Enu
      ∧ Emu + M_P - (M_N - E_B) ≤ Enu
      ∧ Emu + M_P - (M_N - E_B) = Emu + 0.027
      ∧ ∀ sr : SRProxy,
          Exercise3Solution.kConservedETrue { sr with LepE := Dbl.fin Emu, eP := Dbl.fin 0 }
            = Dbl.fin (Emu + 0.027) := by
  have hsq := sq_threshold Emu hE
  have hm : (0 : ℝ) < M_MU := by unfold M_MU; norm_num
  have hD : 0 < 2 * (M_N - E_B - Emu + Real.sqrt (Emu ^ 2 - M_MU ^ 2) * cosmu) := by linarith
  have hp : 0 ≤ Real.sqrt (Emu ^ 2 - M_MU ^ 2) := Real.sqrt_nonneg _
  have hp2 : Real.sqrt (Emu ^ 2 - M_MU ^ 2) ^ 2 = Emu ^ 2 - M_MU ^ 2 :=
    Real.sq_sqrt (by linarith)
  have hc : M_P - (M_N - E_B) = 0.027 := by unfold M_P M_N E_B; norm_num
  have hT : 0 < Emu + M_P - (M_N - E_B) := by
    have : Emu + M_P - (M_N - E_B) = Emu + 0.027 := by linarith
    rw [this]
    have h27 : (0 : ℝ) < 0.027 := by norm_num
    linarith
  refine ⟨_, QEFormula_fin_value Emu cosmu hsq hD.ne', ?_, by linarith, ?_⟩
  · rw [le_div_iff₀ hD]
    generalize Real.sqrt (Emu ^ 2 - M_MU ^ 2) = p at hp hp2 hD ⊢
    have hpc : p * cosmu ≤ p := by
      have := mul_le_mul_of_nonneg_left hhi hp
      linarith
    have hstep : (Emu + M_P - (M_N - E_B)) * (2 * (M_N - E_B - Emu + p * cosmu))
        ≤ (Emu + M_P - (M_N - E_B)) * (2 * (M_N - E_B - Emu + p)) :=
      mul_le_mul_of_nonneg_left (by linarith) hT.le
    have hsquare : 0 ≤ (M_P + (Emu - (M_N - E_B)) - p) ^ 2 := sq_nonneg _
    have hid : M_P ^ 2 - (M_N - E_B) ^ 2 - M_MU ^ 2 + 2 * (M_N - E_B) * Emu
        - (Emu + M_P - (M_N - E_B)) * (2 * (M_N - E_B - Emu + p))
        = (M_P + (Emu - (M_N - E_B)) - p) ^ 2 := by
      linear_combination -hp2
    linarith
  · intro sr
    show Dbl.fin Emu + (Dbl.fin 0 + Dbl.fin M_P) - (Dbl.fin M_N - Dbl.fin E_B)
      = Dbl.fin (Emu + 0.027)
    rw [(Dbl.conserved_eq (Dbl.fin Emu) (Dbl.fin 0)).1]
    simp only [Dbl.fin_add_fin, add_zero]

/-- Witness for the amended C21 at `Emu = 1`, `cosmu = 1`. -/
theorem QEFormula_ge_conserved_witness :
    M_MU ≤ 1 ∧ (-1 : ℝ) ≤ 1 ∧ (1 : ℝ) ≤ 1
      ∧ 0 < M_N - E_B - 1 + Real.sqrt (1 ^ 2 - M_MU ^ 2) * 1
      ∧ ∃ Enu : ℝ, QEFormula (Dbl.fin 1) (Dbl.fin 1) = Dbl.fin Enu
          ∧ 1 + M_P - (M_N - E_B) ≤ Enu := by
  have hE : M_MU ≤ 1 := by unfold M_MU; norm_num
  have hp : (0.9 : ℝ) < Real.sqrt (1 ^ 2 - M_MU ^ 2) := by
    rw [Real.lt_sqrt (by norm_num)]; unfold M_MU; norm_num
  have hden : 0 < M_N - E_B - 1 + Real.sqrt (1 ^ 2 - M_MU ^ 2) * 1 := by
    have h9 : (0 : ℝ) < M_N - E_B - 1 + 0.9 := by unfold M_N E_B; norm_num
    have hs : M_N - E_B - 1 + Real.sqrt (1 ^ 2 - M_MU ^ 2) * 1
        = (M_N - E_B - 1 + 0.9) + (Real.sqrt (1 ^ 2 - M_MU ^ 2) - 0.9) := by ring
    rw [hs]
    exact add_pos h9 (sub_pos.mpr hp)
  obtain ⟨Enu, h1, h2, -, -⟩ := QEFormula_ge_conserved 1 1 hE (by norm_num) le_rfl hden
  exact ⟨hE, by norm_num, le_rfl, hden, Enu, h1, h2⟩
